import Mathlib

/-!
Verification development for the validapi repository.

The Python sources are shallowly embedded below: dictionaries and YAML/JSON
values become the inductive type `Json` (objects are ordered association
lists, matching Python's insertion-ordered dicts with unique keys), mutable
state becomes explicit value passing, and code that can raise becomes
`Except`-valued. Each definition is translated from a named function of the
repository's source; theorems then settle the frozen claims about the spec.
-/

namespace ValidAPI

/-- JSON-like values as produced by `yaml.safe_load` / `json.load` and
manipulated throughout the code base. Numbers are modelled as rationals
(the claims under study involve only exact arithmetic). Objects are ordered
association lists; Python dicts additionally guarantee key uniqueness,
which is captured separately by `Json.wfB`. -/
inductive Json where
  | null : Json
  | bool (b : Bool) : Json
  | num (q : ℚ) : Json
  | str (s : String) : Json
  | arr (elems : List Json) : Json
  | obj (entries : List (String × Json)) : Json

/-- Python `d[k]` / `k in d` on a dict: first-match lookup in the
association list (keys are unique in genuine Python dicts). -/
def lookupKV {α : Type} : List (String × α) → String → Option α
  | [], _ => none
  | (k, v) :: rest, key => if k = key then some v else lookupKV rest key

/-- Python `d[k] = v`: replace the value at the (first) occurrence of `k`,
keeping its position; append at the end when `k` is absent. -/
def setKV {α : Type} : List (String × α) → String → α → List (String × α)
  | [], key, v => [(key, v)]
  | (k, w) :: rest, key, v =>
    if k = key then (k, v) :: rest else (k, w) :: setKV rest key v

/-- Python `d.pop(k)`: drop the (first) entry with key `k`. -/
def eraseKV {α : Type} : List (String × α) → String → List (String × α)
  | [], _ => []
  | (k, w) :: rest, key =>
    if k = key then rest else (k, w) :: eraseKV rest key

/-- Python truthiness of a JSON-like value (`if x:`). -/
def jsonTruthy : Json → Bool
  | .null => false
  | .bool b => b
  | .num q => decide (q ≠ 0)
  | .str s => decide (s ≠ "")
  | .arr xs => !xs.isEmpty
  | .obj es => !es.isEmpty

/-! ## Character-level string helpers (Python `in`, `endswith`, slicing) -/

/-- `pat` is an initial run of `l`. -/
def leadsWith : List Char → List Char → Bool
  | [], _ => true
  | _ :: _, [] => false
  | p :: ps, c :: cs => p = c && leadsWith ps cs

/-- Python `pat in s` on character lists: `pat` occurs contiguously in `l`. -/
def hasRun (pat : List Char) : List Char → Bool
  | [] => leadsWith pat []
  | c :: cs => leadsWith pat (c :: cs) || hasRun pat cs

/-- Python `pat in s` for strings. -/
def strHasSub (s pat : String) : Bool :=
  hasRun pat.data s.data

/-- Python `s.endswith(pat)`. -/
def strEndsWith (s pat : String) : Bool :=
  leadsWith pat.data.reverse s.data.reverse

/-- ASCII case folding of one character (all strings this code lowers —
header names and content types — are ASCII). -/
def lowerChar (c : Char) : Char :=
  if 'A' ≤ c ∧ c ≤ 'Z' then Char.ofNat (c.toNat + 32) else c

/-- Python `s.lower()`. -/
def pyLower (s : String) : String :=
  String.mk (s.data.map lowerChar)

/-! ## ValidationResult (src/validators/base.py) -/

/-- One entry of `ValidationResult.errors` / `.warnings`:
`{'message': ..., 'details': ...}`. -/
structure VEntry where
  message : String
  details : Json

/-- `ValidationResult` from src/validators/base.py. -/
structure ValidationResult where
  valid : Bool
  message : String
  details : Json
  errors : List VEntry
  warnings : List VEntry

/-- `ValidationResult.__init__(valid, message="", details=None)`:
`details or {}` collapses an absent argument to the empty dict. -/
def ValidationResult.init (valid : Bool) (message : String := "")
    (details : Option Json := none) : ValidationResult :=
  { valid := valid, message := message, details := details.getD (.obj []),
    errors := [], warnings := [] }

/-- `ValidationResult.add_error`: append the entry and force `valid = False`. -/
def addError (r : ValidationResult) (msg : String)
    (details : Option Json := none) : ValidationResult :=
  { r with errors := r.errors ++ [⟨msg, details.getD (.obj [])⟩],
           valid := false }

/-- `ValidationResult.add_warning`: append the entry; `valid` untouched. -/
def addWarning (r : ValidationResult) (msg : String)
    (details : Option Json := none) : ValidationResult :=
  { r with warnings := r.warnings ++ [⟨msg, details.getD (.obj [])⟩] }

/-- One mutation of a `ValidationResult` after construction. -/
inductive VROp where
  | err (msg : String) (details : Option Json)
  | warn (msg : String) (details : Option Json)

/-- Apply one `add_error` / `add_warning` call. -/
def applyVROp (r : ValidationResult) : VROp → ValidationResult
  | .err m d => addError r m d
  | .warn m d => addWarning r m d

/-- A `ValidationResult` reached by any sequence of mutator calls. -/
def runVROps (r : ValidationResult) (ops : List VROp) : ValidationResult :=
  ops.foldl applyVROp r

/-! ## Settings.get (src/config/settings.py) -/

/-- Python `key.split('.')` (note `''.split('.') == ['']`, matching Lean). -/
def pySplitDot (s : String) : List String :=
  s.split (fun c => c = '.')

/-- The loop body of `Settings.get`: walk the segments, returning the
default as soon as the current value is not a dict or lacks the segment. -/
def settingsGetGo (dflt : Json) : List String → Json → Json
  | [], value => value
  | k :: ks, value =>
    match value with
    | .obj es =>
      match lookupKV es k with
      | some v => settingsGetGo dflt ks v
      | none => dflt
    | _ => dflt

/-- `Settings.get(key, default)` over a loaded configuration `config`
(the `self.config` dict). Total by construction: the original never
raises either, every step being guarded by `isinstance(value, dict) and
k in value`. -/
def settingsGet (config : Json) (key : String) (dflt : Json) : Json :=
  settingsGetGo dflt (pySplitDot key) config

/-- Specification-side description of a dotted-path lookup: `some` exactly
when every segment exists through nested mappings. -/
def walkPath : Json → List String → Option Json
  | value, [] => some value
  | .obj es, k :: ks =>
    match lookupKV es k with
    | some v => walkPath v ks
    | none => none
  | _, _ :: _ => none

/-! ## HTTPClient.request retry loop (src/utils/http_client.py) -/

/-- Observable behaviour of one `HTTPClient.request` call: the final
outcome, how many transport attempts (`self.session.request` calls) were
made, and the list of back-off sleeps (in time units) in order. -/
structure AttemptTrace (E R : Type) where
  outcome : Except E R
  attempts : Nat
  sleeps : List Nat

/-- The `for attempt in range(self.max_retries + 1)` loop of
`HTTPClient.request`, with the transport (`self.session.request`) abstracted
as an oracle from attempt number to outcome. `rem` counts the retries still
available (`max_retries - attempt`); when it is zero a failure is re-raised
instead of slept on. -/
def retryFrom (oracle : Nat → Except E R) : Nat → Nat → AttemptTrace E R
  | attempt, 0 => ⟨oracle attempt, 1, []⟩
  | attempt, rem + 1 =>
    match oracle attempt with
    | .ok r => ⟨.ok r, 1, []⟩
    | .error _ =>
      let t := retryFrom oracle (attempt + 1) rem
      ⟨t.outcome, t.attempts + 1, 2 ^ attempt :: t.sleeps⟩

/-- `HTTPClient.request` with `max_retries = maxRetries`. -/
def clientRequest (maxRetries : Nat) (oracle : Nat → Except E R) :
    AttemptTrace E R :=
  retryFrom oracle 0 maxRetries

/-! ## ValidationEngine.get_summary (src/validation_engine.py) -/

/-- The projection of one accumulated result dict that `get_summary` reads:
`r['success']`, and `r.get('response_time', 0)` — the key is present on the
response path of `validate_endpoint` and absent on its error paths (which
store `duration` instead). -/
structure EngineResult where
  success : Bool
  response_time : Option ℚ

/-- The dict returned by `get_summary`; the empty-results return carries no
`average_response_time` key, modelled as `none`. -/
structure RunSummary where
  total : Nat
  passed : Nat
  failed : Nat
  success_rate : ℚ
  average_response_time : Option ℚ

/-- `ValidationEngine.get_summary` over the accumulated `self.results`. -/
def getSummary (results : List EngineResult) : RunSummary :=
  if results.isEmpty then ⟨0, 0, 0, 0, none⟩
  else
    let total := results.length
    let passed := (results.filter (·.success)).length
    ⟨total, passed, total - passed,
      (passed : ℚ) / (total : ℚ) * 100,
      some (((results.map (fun r => r.response_time.getD 0)).sum) / (total : ℚ))⟩

/-! ## HTTP responses and the header/schema validators
(src/validators/schema_validator.py) -/

/-- The projection of a received `requests.Response` that the validators
read: headers (an ordered multimap as received; `requests` exposes them
case-insensitively, see `ciGet`), status code and raw text body. -/
structure HTTPResponse where
  headers : List (String × String)
  status_code : Nat
  text : String

/-- `response.headers.get(key, ...)`: requests' `CaseInsensitiveDict`
lookup, first match with case-insensitive key comparison. -/
def ciGet (hs : List (String × String)) (key : String) : Option String :=
  match hs with
  | [] => none
  | (k, v) :: rest => if pyLower k = pyLower key then some v else ciGet rest key

/-- `SchemaValidator._is_json_response`: the lower-cased content-type must
contain `application/json` or end with `/json`. -/
def isJsonResponse (r : HTTPResponse) : Bool :=
  let ct := pyLower ((ciGet r.headers "content-type").getD "")
  strHasSub ct "application/json" || strEndsWith ct "/json"

/-- The fixed table of `_check_security_headers`, in source order. -/
def securityHeadersTable : List (String × Option String) :=
  [("x-content-type-options", some "nosniff"),
   ("x-frame-options", none),
   ("x-xss-protection", none),
   ("strict-transport-security", none),
   ("content-security-policy", none)]

/-- One iteration of the `_check_security_headers` loop, as the warnings it
appends (`elif expected_value and ...` uses string truthiness, hence the
non-emptiness test). -/
def secWarnOne (headers : List (String × String)) (hv : String × Option String) :
    List VEntry :=
  match lookupKV headers hv.1 with
  | none => [⟨"Missing security header: " ++ hv.1, .obj []⟩]
  | some actual =>
    match hv.2 with
    | some expected =>
      if expected ≠ "" && actual ≠ expected then
        [⟨"Security header " ++ hv.1 ++ " has unexpected value",
          .obj [("expected", .str expected), ("actual", .str actual)]⟩]
      else []
    | none => []

/-- The body of the `_check_security_headers` loop. -/
def secStep (headers : List (String × String)) (res : ValidationResult)
    (hv : String × Option String) : ValidationResult :=
  match lookupKV headers hv.1 with
  | none => addWarning res ("Missing security header: " ++ hv.1)
  | some actual =>
    match hv.2 with
    | some expected =>
      if expected ≠ "" && actual ≠ expected then
        addWarning res ("Security header " ++ hv.1 ++ " has unexpected value")
          (some (.obj [("expected", .str expected), ("actual", .str actual)]))
      else res
    | none => res

/-- `HeaderValidator._check_security_headers`: warn (never error) about the
five fixed security headers. -/
def checkSecurityHeaders (headers : List (String × String))
    (res : ValidationResult) : ValidationResult :=
  securityHeadersTable.foldl (secStep headers) res

/-- Python dict comprehension over pairs: later keys overwrite earlier
ones. -/
def dictOfPairs (ps : List (String × String)) : List (String × String) :=
  ps.foldl (fun acc kv => setKV acc kv.1 kv.2) []

/-- `{k.lower(): v for k, v in response.headers.items()}`. -/
def lowerHeaders (r : HTTPResponse) : List (String × String) :=
  dictOfPairs (r.headers.map (fun kv => (pyLower kv.1, kv.2)))

/-- The body of the expected-headers loop of `HeaderValidator.validate`
(`expected_value is None` means presence is enough). -/
def expStep (response_headers : List (String × String)) (res : ValidationResult)
    (hv : String × Option String) : ValidationResult :=
  match lookupKV response_headers (pyLower hv.1) with
  | none => addError res ("Missing expected header: " ++ hv.1)
  | some actual =>
    match hv.2 with
    | some expected =>
      if actual ≠ expected then
        addError res ("Header value mismatch for " ++ hv.1)
          (some (.obj [("expected", .str expected), ("actual", .str actual)]))
      else res
    | none => res

/-- The final `if result.valid:` message assignment of
`HeaderValidator.validate`. -/
def finalizeHeaders (res : ValidationResult) : ValidationResult :=
  if res.valid then { res with message := "Headers validation passed" } else res

/-- `HeaderValidator.validate(response, ..., expected_headers=...)`.
`expected_headers` maps header names to `None` (presence is enough) or an
exact expected value; an empty mapping returns immediately. -/
def headerValidate (r : HTTPResponse)
    (expected_headers : List (String × Option String)) : ValidationResult :=
  if expected_headers.isEmpty then
    ValidationResult.init true "No expected headers specified"
  else
    finalizeHeaders (checkSecurityHeaders (lowerHeaders r)
      (expected_headers.foldl (expStep (lowerHeaders r)) (ValidationResult.init true)))

/-! ## Nullable normalization (SchemaValidator._process_nullable_fields) -/

/-- Python `'null' not in original_type` (only the JSON string `'null'`
compares equal to `'null'`). -/
def typeListHasNull (ts : List Json) : Bool :=
  ts.any (fun t => match t with | .str s => s = "null" | _ => false)

/-- The new `node['type']` value: a list keeps its value when `'null'` is
already present and gets `'null'` appended otherwise; a scalar type `T`
becomes `[T, 'null']`. -/
def newTypeVal : Json → Json
  | .arr ts => if typeListHasNull ts then .arr ts else .arr (ts ++ [.str "null"])
  | t => .arr [t, .str "null"]

/-- The guard `node.get('nullable') is True and 'type' in node`. -/
def nullFires (es : List (String × Json)) : Bool :=
  match lookupKV es "nullable", lookupKV es "type" with
  | some (.bool true), some _ => true
  | _, _ => false

/-- The nullable-rewriting head of `process_node`: update `node['type']`,
then `node.pop('nullable', None)`. -/
def nullableRewrite (es : List (String × Json)) : List (String × Json) :=
  match lookupKV es "nullable", lookupKV es "type" with
  | some (.bool true), some t => eraseKV (setKV es "type" (newTypeVal t)) "nullable"
  | _, _ => es

/-- Update the dict at `k` when the optional processed value is present. -/
def maybeSet (es : List (String × Json)) (k : String) : Option Json → List (String × Json)
  | some v => setKV es k v
  | none => es

/-- A value found by lookup is structurally smaller than its entry list
(termination measure of `process_node`). -/
theorem sizeOf_lookupKV {es : List (String × Json)} {k : String} {v : Json}
    (h : lookupKV es k = some v) : sizeOf v < sizeOf es := by
  induction es with
  | nil => simp [lookupKV] at h
  | cons kv rest ih =>
    obtain ⟨k1, w⟩ := kv
    by_cases hk : k1 = k
    · simp only [lookupKV, if_pos hk, Option.some.injEq] at h
      subst h
      simp only [List.cons.sizeOf_spec, Prod.mk.sizeOf_spec]
      omega
    · simp only [lookupKV, if_neg hk] at h
      have := ih h
      simp only [List.cons.sizeOf_spec, Prod.mk.sizeOf_spec]
      omega

/-- Updating one key leaves lookups of other keys unchanged. -/
theorem lookup_setKV_ne {α : Type} (es : List (String × α)) (k2 k : String) (x : α)
    (h : k ≠ k2) : lookupKV (setKV es k2 x) k = lookupKV es k := by
  induction es with
  | nil =>
    simp only [setKV, lookupKV]
    rw [if_neg (fun hh => h hh.symm)]
  | cons kv rest ih =>
    obtain ⟨k1, w⟩ := kv
    by_cases hk : k1 = k2
    · simp only [setKV, if_pos hk, lookupKV]
      rw [if_neg (fun hh => h (hh.symm.trans hk)),
        if_neg (fun hh => h (hh.symm.trans hk))]
    · simp only [setKV, if_neg hk, lookupKV]
      by_cases hk1 : k1 = k
      · rw [if_pos hk1, if_pos hk1]
      · rw [if_neg hk1, if_neg hk1]
        exact ih

/-- Popping one key leaves lookups of other keys unchanged. -/
theorem lookup_eraseKV_ne {α : Type} (es : List (String × α)) (k2 k : String)
    (h : k ≠ k2) : lookupKV (eraseKV es k2) k = lookupKV es k := by
  induction es with
  | nil => rfl
  | cons kv rest ih =>
    obtain ⟨k1, w⟩ := kv
    by_cases hk : k1 = k2
    · simp only [eraseKV, if_pos hk, lookupKV]
      rw [if_neg (fun hh => h (hh.symm.trans hk))]
    · simp only [eraseKV, if_neg hk, lookupKV]
      by_cases hk1 : k1 = k
      · rw [if_pos hk1, if_pos hk1]
      · rw [if_neg hk1, if_neg hk1]
        exact ih

/-- The nullable rewrite only touches the `type` and `nullable` entries. -/
theorem lookup_nullableRewrite_ne (es : List (String × Json)) (k : String)
    (h1 : k ≠ "type") (h2 : k ≠ "nullable") :
    lookupKV (nullableRewrite es) k = lookupKV es k := by
  unfold nullableRewrite
  split
  · rw [lookup_eraseKV_ne _ _ _ h2, lookup_setKV_ne _ _ _ _ h1]
  · rfl

mutual
/-- The inner `process_node` of `SchemaValidator._process_nullable_fields`:
rewrite the nullable guard, then recursively process the values at
`properties` (each property value; error — Python `AttributeError` from
`.items()` — when the `properties` value is not a dict), `items`, and
`additionalProperties` (dict values only), in source order. The rewrite
never touches those three keys, so looking them up in the rewritten node
matches the in-place mutation of the source. -/
def processNode : Json → Except String Json
  | .obj es =>
    (match h1 : lookupKV (nullableRewrite es) "properties" with
      | none => Except.ok none
      | some (.obj pes) => (processEntries pes).map (fun pes2 => some (Json.obj pes2))
      | some _ => Except.error "AttributeError: 'properties' is not a dict").bind
      (fun p? =>
        (match h2 : lookupKV (nullableRewrite es) "items" with
          | none => Except.ok none
          | some v => (processNode v).map some).bind
          (fun i? =>
            (match h3 : lookupKV (nullableRewrite es) "additionalProperties" with
              | some (.obj aes) => (processNode (.obj aes)).map some
              | _ => Except.ok none).map
              (fun a? => Json.obj (maybeSet (maybeSet (maybeSet (nullableRewrite es)
                "properties" p?) "items" i?) "additionalProperties" a?))))
  | j => Except.ok j
  termination_by j => sizeOf j
  decreasing_by
  · have hl := sizeOf_lookupKV
      ((lookup_nullableRewrite_ne es "properties" (by decide) (by decide)) ▸ h1)
    simp only [Json.obj.sizeOf_spec] at hl ⊢
    omega
  · have hl := sizeOf_lookupKV
      ((lookup_nullableRewrite_ne es "items" (by decide) (by decide)) ▸ h2)
    simp only [Json.obj.sizeOf_spec]
    omega
  · have hl := sizeOf_lookupKV
      ((lookup_nullableRewrite_ne es "additionalProperties" (by decide) (by decide)) ▸ h3)
    simp only [Json.obj.sizeOf_spec] at hl ⊢
    omega

/-- The `for key, value in node['properties'].items()` loop: process each
property value in order. -/
def processEntries : List (String × Json) → Except String (List (String × Json))
  | [] => Except.ok []
  | (k, v) :: rest =>
    (processNode v).bind (fun v2 =>
      (processEntries rest).map (fun rest2 => (k, v2) :: rest2))
  termination_by pes => sizeOf pes
  decreasing_by
  · simp only [List.cons.sizeOf_spec, Prod.mk.sizeOf_spec]
    omega
  · simp only [List.cons.sizeOf_spec, Prod.mk.sizeOf_spec]
    omega
end

/-- `SchemaValidator._process_nullable_fields(schema)`: deep-copy (a no-op
in the pure embedding) followed by `process_node`. -/
def processNullableFields (schema : Json) : Except String Json :=
  processNode schema

/-- Key uniqueness of one entry list, as guaranteed for Python dicts. -/
def nodupKeys : List (String × Json) → Bool
  | [] => true
  | (k, _) :: rest => !(lookupKV rest k).isSome && nodupKeys rest

mutual
/-- Well-formedness of a parsed YAML/JSON value: every object (at any
depth) has unique keys, as Python dicts do. -/
def jwf : Json → Bool
  | .obj es => nodupKeys es && entriesWF es
  | .arr xs => elemsWF xs
  | _ => true
/-- All values of an entry list are well-formed. -/
def entriesWF : List (String × Json) → Bool
  | [] => true
  | (_, v) :: rest => jwf v && entriesWF rest
/-- All elements of an array are well-formed. -/
def elemsWF : List Json → Bool
  | [] => true
  | v :: rest => jwf v && elemsWF rest
end

mutual
/-- A schema on which `process_node` acts as the identity: the nullable
guard cannot fire, and the three recursively processed positions are
themselves normalized (`properties` being a dict whenever present). -/
def jnorm : Json → Bool
  | .obj es =>
    !(nullFires es)
    && (match hp : lookupKV es "properties" with
        | none => true
        | some (.obj pes) => entriesNorm pes
        | some _ => false)
    && (match hi : lookupKV es "items" with
        | none => true
        | some v => jnorm v)
    && (match ha : lookupKV es "additionalProperties" with
        | some (.obj aes) => jnorm (.obj aes)
        | _ => true)
  | _ => true
  termination_by j => sizeOf j
  decreasing_by
  · have hl := sizeOf_lookupKV hp
    simp only [Json.obj.sizeOf_spec] at hl ⊢
    omega
  · have hl := sizeOf_lookupKV hi
    simp only [Json.obj.sizeOf_spec]
    omega
  · have hl := sizeOf_lookupKV ha
    simp only [Json.obj.sizeOf_spec] at hl ⊢
    omega

/-- All values of an entry list are normalized. -/
def entriesNorm : List (String × Json) → Bool
  | [] => true
  | (_, v) :: rest => jnorm v && entriesNorm rest
  termination_by pes => sizeOf pes
  decreasing_by
  · simp only [List.cons.sizeOf_spec, Prod.mk.sizeOf_spec]
    omega
  · simp only [List.cons.sizeOf_spec, Prod.mk.sizeOf_spec]
    omega
end

/-! ## SchemaValidator.validate and _validate_against_schema
(src/validators/schema_validator.py) -/

/-- One entry of a `jsonschema.ValidationError` path deque: a string key or
an integer index. -/
inductive PathSeg where
  | key (s : String)
  | idx (n : Nat)

/-- The fields of a `jsonschema.ValidationError` that
`_validate_against_schema` and `_is_acceptable_null_error` read. -/
structure Draft7Error where
  message : String
  instanceVal : Json
  absolute_path : List PathSeg
  schema_path : List PathSeg
  validator : String
  validator_value : Json

/-- Python `repr` of one deque element (schema keys contain no quotes). -/
def renderSeg : PathSeg → String
  | .key s => "'" ++ s ++ "'"
  | .idx n => toString n

/-- Python `", ".join(...)`. -/
def joinCommaSp : List String → String
  | [] => ""
  | [s] => s
  | s :: rest => s ++ ", " ++ joinCommaSp rest

/-- `str(error.schema_path)`: Python renders the deque as `deque([...])`
with comma-separated element reprs. -/
def renderDeque (segs : List PathSeg) : String :=
  "deque([" ++ joinCommaSp (segs.map renderSeg) ++ "])"

/-- The fixed allow-list of `_is_acceptable_null_error`. -/
def nullAllowList : List String :=
  ["next", "previous", "url", "description", "results"]

/-- `SchemaValidator._is_acceptable_null_error(error, data)`: keep only
violations whose instance value is null and whose non-empty instance path
either ends in an allow-listed key, or whose keyword is `type` with
`'readOnly' in str(error.schema_path)`. The parent-navigation loop of the
source computes a value that is never used and is omitted; the `data`
argument is only read by that dead loop. -/
def isAcceptableNullError (e : Draft7Error) : Bool :=
  match e.instanceVal with
  | .null =>
    match e.absolute_path with
    | [] => false
    | _ :: _ =>
      (e.validator = "type" && strHasSub (renderDeque e.schema_path) "readOnly")
      || (match e.absolute_path.getLast? with
          | some (.key s) => nullAllowList.contains s
          | _ => false)
  | _ => false

/-- A path entry as copied into the error details. -/
def segJson : PathSeg → Json
  | .key s => .str s
  | .idx n => .num n

/-- The `error_details` dict of `_validate_against_schema`. Python `str()`
of a parsed value is an external collaborator (`pyStr`); the truncated
`invalid_value` is None for falsy instances
(`str(error.instance)[:100] if error.instance else None`). -/
def mkErrorDetails (pyStr : Json → String) (e : Draft7Error) : Json :=
  .obj [("path", .arr (e.absolute_path.map segJson)),
        ("invalid_value",
          if jsonTruthy e.instanceVal then .str ((pyStr e.instanceVal).take 100)
          else .null),
        ("schema_path", .arr (e.schema_path.map segJson)),
        ("validator", .str e.validator),
        ("validator_value", e.validator_value)]

/-- `SchemaValidator._validate_against_schema(data, schema, full_spec)`:
normalize the schema (an `AttributeError` raised there is caught by the
trailing `except Exception` and becomes one synthetic error entry), then
collect the library's draft-7 violations — `iterErrors` abstracts
`Draft7Validator(processed, resolver).iter_errors(data)` together with the
`RefResolver` built from `full_spec` — dropping the ones
`_is_acceptable_null_error` accepts. -/
def validateAgainstSchema (pyStr : Json → String)
    (iterErrors : Json → Json → Json → List Draft7Error)
    (data schema full_spec : Json) : List (String × Json) :=
  match processNullableFields schema with
  | .error emsg =>
    [("Validation error: " ++ emsg, .obj [("error_type", .str "AttributeError")])]
  | .ok processed =>
    (iterErrors processed full_spec data).filterMap (fun e =>
      if isAcceptableNullError e then none
      else some (e.message, mkErrorDetails pyStr e))

/-- `result.details[k] = v` (`details` is a dict in every reachable
state). -/
def detailsSet (res : ValidationResult) (k : String) (v : Json) : ValidationResult :=
  { res with details :=
      match res.details with
      | .obj ds => .obj (setKV ds k v)
      | d => d }

mutual
/-- `SchemaValidator._check_empty_fields(data, result, path)`: warn on
null, empty-string, empty-dict and empty-list values, recursing into
non-empty dict values, tagging each warning with its dotted path. The
loop body is the mutual `checkEmptyField`. -/
def checkEmptyFields : List (String × Json) → String → ValidationResult → ValidationResult
  | [], _, res => res
  | (k, v) :: rest, path, res =>
    checkEmptyFields rest path (checkEmptyField k v path res)
  termination_by pes _ _ => sizeOf pes
  decreasing_by
  · simp only [List.cons.sizeOf_spec, Prod.mk.sizeOf_spec]
    omega
  · simp only [List.cons.sizeOf_spec, Prod.mk.sizeOf_spec]
    omega

/-- One iteration of the `_check_empty_fields` loop (the `if/elif` chain of
the source, in order). -/
def checkEmptyField (k : String) (v : Json) (path : String)
    (res : ValidationResult) : ValidationResult :=
  let current := if path = "" then k else path ++ "." ++ k
  match v with
  | .null => addWarning res ("Null value found at " ++ current)
  | .str s =>
    if s = "" then addWarning res ("Empty string found at " ++ current) else res
  | .obj [] => addWarning res ("Empty object found at " ++ current)
  | .arr [] => addWarning res ("Empty array found at " ++ current)
  | .obj (e2 :: es2) => checkEmptyFields (e2 :: es2) current res
  | _ => res
  termination_by sizeOf v
  decreasing_by
  · simp only [Json.obj.sizeOf_spec]
    omega
end

/-- `SchemaValidator._validate_response_structure(data, result)`: the
heuristic warnings-only checks (error field, pagination shape, empty
fields). -/
def validateResponseStructure (data : Json) (res : ValidationResult) : ValidationResult :=
  match data with
  | .obj es =>
    let res2 :=
      match lookupKV es "error" with
      | some (.str msg) =>
        addWarning res "Response contains error field"
          (some (.obj [("error_message", .str msg)]))
      | _ => res
    let res3 :=
      match lookupKV es "data" with
      | some (.arr _) =>
        if (lookupKV es "page").isSome || (lookupKV es "limit").isSome ||
            (lookupKV es "total").isSome
        then detailsSet res2 "pagination_detected" (.bool true)
        else res2
      | _ => res2
    checkEmptyFields es "" res3
  | _ => res

/-- `SchemaValidator.validate(response, expected_schema, spec=...)`. The
JSON parser (`response.json()`) and the jsonschema machinery are external
collaborators passed as functions; the rest follows the source. The outer
`except Exception` cannot fire in this embedding, all modelled steps being
total. -/
def schemaValidate (pyStr : Json → String)
    (parse : String → Except String Json)
    (iterErrors : Json → Json → Json → List Draft7Error)
    (r : HTTPResponse) (expected_schema : Json) (spec : Json) : ValidationResult :=
  if !(isJsonResponse r) then
    addError (ValidationResult.init true) "Response is not JSON"
      (some (.obj
        [("content_type", .str ((ciGet r.headers "content-type").getD "unknown")),
         ("status_code", .num (r.status_code : ℚ))]))
  else
    match parse r.text with
    | .error e =>
      addError (ValidationResult.init true) ("Invalid JSON in response: " ++ e)
        (some (.obj [("response_text", .str (r.text.take 500))]))
    | .ok data =>
      let res :=
        if jsonTruthy expected_schema then
          (validateAgainstSchema pyStr iterErrors data expected_schema spec).foldl
            (fun acc err =>
              addError acc ("Schema validation error: " ++ err.1) (some err.2))
            (ValidationResult.init true)
        else ValidationResult.init true
      let res2 := validateResponseStructure data res
      if res2.valid then { res2 with message := "Response validates against schema" }
      else res2

/-! ## OpenAPIParser and ValidationEngine.validate_endpoint
(src/parsers/openapi_parser.py, src/validation_engine.py) -/

/-- Exceptions of the Python code relevant here. -/
inductive PyErr where
  | attributeError (msg : String)
  | requestException (msg : String)

/-- Python `s.upper()` (ASCII, like `pyLower`). -/
def upperChar (c : Char) : Char :=
  if 'a' ≤ c ∧ c ≤ 'z' then Char.ofNat (c.toNat - 32) else c

/-- Python `s.upper()`. -/
def pyUpper (s : String) : String :=
  String.mk (s.data.map upperChar)

/-- `OpenAPIParser.get_base_url`: `servers[0].url` or the empty string
(server entries in real specs are objects with string `url` values). -/
def getBaseURL (spec : Json) : String :=
  match spec with
  | .obj es =>
    match lookupKV es "servers" with
    | some (.arr (s0 :: _)) =>
      match s0 with
      | .obj ses =>
        match lookupKV ses "url" with
        | some (.str u) => u
        | _ => ""
      | _ => ""
    | _ => ""
  | _ => ""

/-- `operation.get(k, default)`. -/
def opGet (operation : Json) (k : String) (dflt : Json) : Json :=
  match operation with
  | .obj es => (lookupKV es k).getD dflt
  | _ => dflt

/-- The endpoint-info dict built by `get_endpoint` once an operation is
found. -/
def endpointInfo (path method : String) (operation : Json) : Json :=
  .obj [("path", .str path),
        ("method", .str (pyUpper method)),
        ("operation_id", opGet operation "operationId" (.str (method ++ "_" ++ path))),
        ("summary", opGet operation "summary" (.str "")),
        ("description", opGet operation "description" (.str "")),
        ("parameters", opGet operation "parameters" (.arr [])),
        ("request_body", opGet operation "requestBody" (.obj [])),
        ("responses", opGet operation "responses" (.obj [])),
        ("tags", opGet operation "tags" (.arr [])),
        ("security", opGet operation "security" (.arr []))]

/-- The attribute dictionary of an `OpenAPIParser` instance right after
`__init__`: exactly `spec_path`, `spec`, `base_url`, `paths` and
`components` are assigned; reading any other attribute raises
`AttributeError` (Python instance attribute lookup). -/
def parserAttr (specPath : String) (spec : Json) (name : String) : Option Json :=
  if name = "spec_path" then some (.str specPath)
  else if name = "spec" then some spec
  else if name = "base_url" then some (.str (getBaseURL spec))
  else if name = "paths" then some (opGet spec "paths" (.obj []))
  else if name = "components" then some (opGet spec "components" (.obj []))
  else none

/-- `OpenAPIParser.get_endpoint(path, method)`: reads `self.path` — an
attribute `__init__` never assigns (the populated attribute is
`self.paths`) — so the first line raises `AttributeError`; the intended
lookup below it is unreachable. -/
def getEndpoint (specPath : String) (spec : Json) (path method : String) :
    Except PyErr (Option Json) :=
  match parserAttr specPath spec "path" with
  | none => .error (.attributeError "'OpenAPIParser' object has no attribute 'path'")
  | some d =>
    match d with
    | .obj pes =>
      match (lookupKV pes path).getD (.obj []) with
      | .obj pies =>
        let operation := (lookupKV pies (pyLower method)).getD (.obj [])
        if jsonTruthy operation then .ok (some (endpointInfo path method operation))
        else .ok none
      | _ => .error (.attributeError "'get' on a non-dict path item")
    | _ => .error (.attributeError "'get' on a non-dict paths table")

/-- The dict `validate_endpoint` returns when the endpoint is absent from
the specification. -/
def notFoundDict (path method : String) : Json :=
  .obj [("path", .str path), ("method", .str method), ("success", .bool false),
        ("error", .str ("Endpoint not found in specification: " ++ method ++ " " ++ path)),
        ("duration", .num 0)]

/-- `ValidationEngine.validate_endpoint(path, method, test_data)`. The
endpoint lookup happens before the `try:` block, so an `AttributeError`
from `get_endpoint` propagates; only `requests.RequestException` from the
HTTP/validation part (abstracted as `transport`) is caught and converted
into a failure dict. -/
def validateEndpoint (specPath : String) (spec : Json) (path method : String)
    (transport : Unit → Except PyErr Json)
    (requestFailedDict : String → Json) : Except PyErr Json :=
  match getEndpoint specPath spec path method with
  | .error e => .error e
  | .ok none => .ok (notFoundDict path method)
  | .ok (some _) =>
    match transport () with
    | .ok result => .ok result
    | .error (.requestException m) => .ok (requestFailedDict m)
    | .error e => .error e

/-! ## resolve_reference (absent from src/; modelled from the spec) -/

/-- One reference-resolution failure. -/
inductive RefErr where
  | refError (segment : String)
  | nonLocalRef (ref : String)

/-- Split a character list at a separator (Python `str.split(sep)`). -/
def splitOnChar (c : Char) : List Char → List (List Char)
  | [] => [[]]
  | d :: rest =>
    if d = c then [] :: splitOnChar c rest
    else
      match splitOnChar c rest with
      | seg :: segs => (d :: seg) :: segs
      | [] => [[d]]

/-- Walk reference segments through nested mappings from the document
root; fail on the first absent segment. -/
def refWalk : Json → List String → Except RefErr Json
  | v, [] => .ok v
  | .obj es, s :: ss =>
    match lookupKV es s with
    | some v => refWalk v ss
    | none => .error (.refError s)
  | _, s :: _ => .error (.refError s)

/-- Modelled from the spec: `resolve_reference` is called by
`OpenAPIParser.get_parameters` and exercised by
tests/test_openapi_parser.py, but its definition is not under src/.
Spec §4.1: "resolveReference(ref) → schema node; strips the leading `#/`,
walks segments through nested mappings from the document root; fails with
`ReferenceError` when any segment is absent"; spec §9 records that
non-local references should fail explicitly. -/
def resolve_reference (spec : Json) (ref : String) : Except RefErr Json :=
  match ref.data with
  | '#' :: '/' :: rest =>
    refWalk spec ((splitOnChar '/' rest).map (fun cs => String.mk cs))
  | _ => .error (.nonLocalRef ref)

/-- The character list of `"#/" ++ "/".join(segs)`: builds the reference
string the claim quantifies over. -/
def joinSlashChars : List String → List Char
  | [] => []
  | [s] => s.data
  | s :: rest => s.data ++ '/' :: joinSlashChars rest

/-- The reference string `#/a/b/...` for a segment list. -/
def mkRef (segs : List String) : String :=
  String.mk ('#' :: '/' :: joinSlashChars segs)

/-! ## Theorems: C9, C10, C6, C3 -/

/-- The invariant "non-empty `errors` forces `valid = false`" is preserved by
every mutator call. -/
theorem runVROps_error_invariant (ops : List VROp) (r : ValidationResult)
    (h : r.errors ≠ [] → r.valid = false) :
    (runVROps r ops).errors ≠ [] → (runVROps r ops).valid = false := by
  induction ops generalizing r with
  | nil => exact h
  | cons op rest ih =>
    cases op with
    | err m d =>
      exact ih (addError r m d) (fun _ => rfl)
    | warn m d =>
      exact ih (addWarning r m d) h

/-- C9: for every `ValidationResult` reachable by any sequence of
constructor, `add_error` and `add_warning` operations, a non-empty errors
list implies `valid = false`. -/
theorem validationResult_errors_force_invalid (v : Bool) (m : String)
    (d : Option Json) (ops : List VROp)
    (h : (runVROps (ValidationResult.init v m d) ops).errors ≠ []) :
    (runVROps (ValidationResult.init v m d) ops).valid = false :=
  runVROps_error_invariant ops _ (fun he => absurd rfl he) h

/-- C9 witness: one `add_error` call on a freshly constructed valid result. -/
theorem validationResult_errors_force_invalid_witness :
    (runVROps (ValidationResult.init true "" none) [.err "boom" none]).errors ≠ [] ∧
    (runVROps (ValidationResult.init true "" none) [.err "boom" none]).valid = false :=
  ⟨by simp [runVROps, applyVROp, addError, ValidationResult.init],
   validationResult_errors_force_invalid true "" none [.err "boom" none]
     (by simp [runVROps, applyVROp, addError, ValidationResult.init])⟩

/-- The loop of `Settings.get` agrees with the specification-side dotted-path
walk, returning the default exactly when the walk fails. -/
theorem settingsGetGo_eq_walkPath (dflt : Json) (segs : List String) (value : Json) :
    settingsGetGo dflt segs value = (walkPath value segs).getD dflt := by
  induction segs generalizing value with
  | nil => cases value <;> rfl
  | cons k ks ih =>
    cases value with
    | obj es =>
      simp only [settingsGetGo, walkPath]
      cases lookupKV es k with
      | none => rfl
      | some v => exact ih v
    | null => rfl
    | bool b => rfl
    | num q => rfl
    | str s => rfl
    | arr xs => rfl

/-- C10: `Settings.get(key, default)` is total (it is a total function of the
loaded configuration and the dotted key) and returns the supplied default
exactly when some segment is absent or an intermediate value is not a
mapping, and the stored value otherwise. -/
theorem settingsGet_total_default (config : Json) (key : String) (dflt : Json) :
    settingsGet config key dflt = (walkPath config (pySplitDot key)).getD dflt :=
  settingsGetGo_eq_walkPath dflt (pySplitDot key) config

/-- If the first `k` attempts fail and attempt `k` succeeds, the retry loop
stops right there: `k + 1` transport calls, back-off sleeps `2^i` for the
failed attempts only. -/
theorem retryFrom_first_ok {E R : Type} (oracle : Nat → Except E R) (r : R) :
    ∀ (k attempt rem : Nat), k ≤ rem →
    (∀ i, i < k → ∃ e, oracle (attempt + i) = .error e) →
    oracle (attempt + k) = .ok r →
    retryFrom oracle attempt rem =
      ⟨.ok r, k + 1, (List.range k).map (fun i => 2 ^ (attempt + i))⟩ := by
  intro k
  induction k with
  | zero =>
    intro attempt rem _ _ hok
    cases rem with
    | zero => simp only [retryFrom]; rw [show attempt + 0 = attempt from rfl] at hok; rw [hok]; rfl
    | succ n => simp only [retryFrom]; rw [show attempt + 0 = attempt from rfl] at hok; rw [hok]; rfl
  | succ k ih =>
    intro attempt rem hle hfail hok
    cases rem with
    | zero => omega
    | succ n =>
      obtain ⟨e, he⟩ := hfail 0 (Nat.succ_pos k)
      rw [show attempt + 0 = attempt from rfl] at he
      have hrec := ih (attempt + 1) n (by omega)
        (fun i hi => by
          obtain ⟨e2, he2⟩ := hfail (i + 1) (by omega)
          exact ⟨e2, by rw [show attempt + 1 + i = attempt + (i + 1) from by omega]; exact he2⟩)
        (by rw [show attempt + 1 + k = attempt + (k + 1) from by omega]; exact hok)
      simp only [retryFrom, he, hrec]
      refine congrArg₂ _ rfl ?_
      have hmap : (List.range (k + 1)).map (fun i => 2 ^ (attempt + i)) =
          2 ^ attempt :: (List.range k).map (fun i => 2 ^ (attempt + 1 + i)) := by
        rw [List.range_succ_eq_map]
        simp only [List.map_cons, List.map_map, Nat.add_zero]
        refine congrArg₂ _ rfl ?_
        refine List.map_congr_left (fun i _ => ?_)
        simp only [Function.comp]
        congr 1
        omega
      rw [hmap]

/-- C6: with `max_retries = 3` and a persistently failing transport,
`HTTPClient.request` makes exactly 4 attempts, sleeping `2^attempt` after
each failed non-final attempt (cumulative back-off 1+2+4 = 7), and re-raises
the last transport error; and whenever some attempt yields a received
response after only failures, that response is returned immediately with no
further attempts. -/
theorem httpClient_retry_policy :
    (∀ (E R : Type) (err : Nat → E) (oracle : Nat → Except E R),
      (∀ i, oracle i = .error (err i)) →
      clientRequest 3 oracle = ⟨.error (err 3), 4, [1, 2, 4]⟩ ∧
      (clientRequest 3 oracle).sleeps.sum = 7) ∧
    (∀ (E R : Type) (oracle : Nat → Except E R) (m k : Nat) (r : R),
      k ≤ m →
      (∀ i, i < k → ∃ e, oracle i = .error e) →
      oracle k = .ok r →
      clientRequest m oracle = ⟨.ok r, k + 1, (List.range k).map (fun i => 2 ^ i)⟩) := by
  constructor
  · intro E R err oracle herr
    have : clientRequest 3 oracle = ⟨.error (err 3), 4, [1, 2, 4]⟩ := by
      simp only [clientRequest, retryFrom, herr]
      norm_num
    exact ⟨this, by rw [this]; norm_num⟩
  · intro E R oracle m k r hle hfail hok
    have := retryFrom_first_ok oracle r k 0 m hle
      (fun i hi => by simpa using hfail i hi) (by simpa using hok)
    simpa using this

/-- C6 witness: a transport that always fails, at `max_retries = 3`. -/
theorem httpClient_retry_policy_witness :
    (∀ i : Nat, (fun _ : Nat => (Except.error "boom" : Except String Unit)) i =
      .error ((fun _ : Nat => "boom") i)) ∧
    clientRequest 3 (fun _ : Nat => (Except.error "boom" : Except String Unit)) =
      ⟨.error "boom", 4, [1, 2, 4]⟩ :=
  ⟨fun _ => rfl,
   (httpClient_retry_policy.1 String Unit (fun _ => "boom") _ (fun _ => rfl)).1⟩

/-- Summing `r.get('response_time', 0)` over all results equals summing the
response times of the results that carry the field. -/
theorem sum_getD_eq_filterMap (results : List EngineResult) :
    ((results.map (fun r => r.response_time.getD 0)).sum : ℚ) =
      (results.filterMap EngineResult.response_time).sum := by
  induction results with
  | nil => simp
  | cons r rest ih =>
    cases h : r.response_time with
    | none => simp [h, ih]
    | some q => simp [h, ih]

/-- Two accumulated results, only the first carrying a response time. -/
def c3Results : List EngineResult := [⟨true, some 2⟩, ⟨true, none⟩]

/-- C3 counterexample: with one result carrying response time 2 and one
result without the field, the code reports average 1 (division by the total
count), not the claimed mean 2 over the carriers alone. -/
theorem getSummary_average_cex :
    (getSummary c3Results).average_response_time ≠
      some ((c3Results.filterMap EngineResult.response_time).sum /
        ((c3Results.filterMap EngineResult.response_time).length : ℚ)) := by
  simp only [getSummary, c3Results]
  norm_num [List.filterMap_cons]

/-- C3 (amended): for every non-empty result list, `average_response_time`
is the sum of the response times of the results carrying the field (results
without it contributing 0) divided by the total number of results — and it
is 0 when no result carries the field. -/
theorem getSummary_average_missing_as_zero (results : List EngineResult)
    (h : results ≠ []) :
    (getSummary results).average_response_time =
      some ((results.filterMap EngineResult.response_time).sum /
        (results.length : ℚ)) ∧
    ((∀ r ∈ results, r.response_time = none) →
      (getSummary results).average_response_time = some 0) := by
  have hne : results.isEmpty = false := by
    cases results with
    | nil => exact absurd rfl h
    | cons a l => rfl
  constructor
  · simp only [getSummary, hne, Bool.false_eq_true, if_false]
    rw [sum_getD_eq_filterMap]
  · intro hall
    have hnil : results.filterMap EngineResult.response_time = [] :=
      List.filterMap_eq_nil_iff.mpr hall
    simp only [getSummary, hne, Bool.false_eq_true, if_false]
    rw [sum_getD_eq_filterMap, hnil]
    simp

/-! ## Support lemmas for the nullable-normalization theorems -/

/-- Looking up the key just set yields the new value. -/
theorem lookup_setKV_self {α : Type} (es : List (String × α)) (k : String) (v : α) :
    lookupKV (setKV es k v) k = some v := by
  induction es with
  | nil => simp [setKV, lookupKV]
  | cons kv rest ih =>
    obtain ⟨k1, w⟩ := kv
    by_cases hk : k1 = k
    · simp [setKV, lookupKV, hk]
    · simp [setKV, if_neg hk, lookupKV, ih]

/-- Writing back the value already stored is a no-op. -/
theorem setKV_id {α : Type} {es : List (String × α)} {k : String} {v : α}
    (h : lookupKV es k = some v) : setKV es k v = es := by
  induction es with
  | nil => simp [lookupKV] at h
  | cons kv rest ih =>
    obtain ⟨k1, w⟩ := kv
    by_cases hk : k1 = k
    · simp only [lookupKV, if_pos hk, Option.some.injEq] at h
      simp [setKV, hk, h]
    · simp only [lookupKV, if_neg hk] at h
      simp [setKV, hk, ih h]

/-- `maybeSet` at another key does not change a lookup. -/
theorem lookup_maybeSet_ne (es : List (String × Json)) (k2 k : String)
    (o : Option Json) (h : k ≠ k2) :
    lookupKV (maybeSet es k2 o) k = lookupKV es k := by
  cases o with
  | none => rfl
  | some v => exact lookup_setKV_ne es k2 k v h

/-- Erasing any key preserves the absence of a key. -/
theorem lookup_eraseKV_none {α : Type} {es : List (String × α)} {k : String}
    (k2 : String) (h : lookupKV es k = none) :
    lookupKV (eraseKV es k2) k = none := by
  induction es with
  | nil => rfl
  | cons kv rest ih =>
    obtain ⟨k1, w⟩ := kv
    by_cases hk1 : k1 = k
    · simp [lookupKV, hk1] at h
    · simp only [lookupKV, if_neg hk1] at h
      by_cases hk2 : k1 = k2
      · simp only [eraseKV, if_pos hk2]
        exact h
      · simp only [eraseKV, if_neg hk2, lookupKV, if_neg hk1]
        exact ih h

/-- Updating a key preserves key uniqueness. -/
theorem nodup_setKV {es : List (String × Json)} (k : String) (v : Json)
    (h : nodupKeys es = true) : nodupKeys (setKV es k v) = true := by
  induction es with
  | nil => simp [setKV, nodupKeys, lookupKV]
  | cons kv rest ih =>
    obtain ⟨k1, w⟩ := kv
    simp only [nodupKeys, Bool.and_eq_true, Bool.not_eq_true] at h
    by_cases hk : k1 = k
    · simp only [setKV, if_pos hk, nodupKeys, Bool.and_eq_true, Bool.not_eq_true]
      exact h
    · simp only [setKV, if_neg hk, nodupKeys, Bool.and_eq_true, Bool.not_eq_true]
      refine ⟨?_, ih h.2⟩
      rw [lookup_setKV_ne rest k k1 v (fun hh => hk hh)]
      exact h.1

/-- Erasing a key preserves key uniqueness. -/
theorem nodup_eraseKV {es : List (String × Json)} (k : String)
    (h : nodupKeys es = true) : nodupKeys (eraseKV es k) = true := by
  induction es with
  | nil => rfl
  | cons kv rest ih =>
    obtain ⟨k1, w⟩ := kv
    simp only [nodupKeys, Bool.and_eq_true, Bool.not_eq_true] at h
    by_cases hk : k1 = k
    · simp only [eraseKV, if_pos hk]
      exact h.2
    · simp only [eraseKV, if_neg hk, nodupKeys, Bool.and_eq_true, Bool.not_eq_true]
      refine ⟨?_, ih h.2⟩
      have h1 : lookupKV rest k1 = none := by
        cases hl : lookupKV rest k1 with
        | none => rfl
        | some x => rw [hl] at h; simp at h
      rw [lookup_eraseKV_none k h1]
      rfl

/-- With unique keys, erasing a key removes it entirely. -/
theorem lookup_erase_self {es : List (String × Json)} (k : String)
    (h : nodupKeys es = true) : lookupKV (eraseKV es k) k = none := by
  induction es with
  | nil => rfl
  | cons kv rest ih =>
    obtain ⟨k1, w⟩ := kv
    simp only [nodupKeys, Bool.and_eq_true, Bool.not_eq_true] at h
    by_cases hk : k1 = k
    · subst hk
      cases hl : lookupKV rest k1 with
      | none => simp only [eraseKV, if_pos rfl]; exact hl
      | some x => rw [hl] at h; simp at h
    · simp only [eraseKV, if_neg hk, lookupKV, if_neg hk]
      exact ih h.2

/-- The nullable rewrite preserves key uniqueness. -/
theorem nodup_nullableRewrite {es : List (String × Json)}
    (h : nodupKeys es = true) : nodupKeys (nullableRewrite es) = true := by
  unfold nullableRewrite
  split
  · exact nodup_eraseKV _ (nodup_setKV _ _ h)
  · exact h

/-- `nullFires` only depends on the `nullable` and `type` lookups. -/
theorem nullFires_congr {es1 es2 : List (String × Json)}
    (hn : lookupKV es2 "nullable" = lookupKV es1 "nullable")
    (ht : lookupKV es2 "type" = lookupKV es1 "type") :
    nullFires es2 = nullFires es1 := by
  unfold nullFires
  rw [hn, ht]

/-- After the rewrite the guard can no longer fire (on a genuine dict). -/
theorem nullFires_nullableRewrite {es : List (String × Json)}
    (h : nodupKeys es = true) : nullFires (nullableRewrite es) = false := by
  unfold nullableRewrite
  split
  · unfold nullFires
    rw [lookup_erase_self "nullable" (nodup_setKV "type" _ h)]
  · next hmatch =>
    unfold nullFires
    cases hn : lookupKV es "nullable" with
    | none => rfl
    | some nv =>
      cases ht : lookupKV es "type" with
      | none =>
        cases nv with
        | bool b => cases b <;> rfl
        | null => rfl
        | num q => rfl
        | str s => rfl
        | arr xs => rfl
        | obj es2 => rfl
      | some t =>
        cases nv with
        | bool b =>
          cases b with
          | true => exact (hmatch t hn ht).elim
          | false => rfl
        | null => rfl
        | num q => rfl
        | str s => rfl
        | arr xs => rfl
        | obj es2 => rfl

/-- When the guard does not fire, the rewrite is the identity. -/
theorem nullableRewrite_id {es : List (String × Json)}
    (h : nullFires es = false) : nullableRewrite es = es := by
  unfold nullFires at h
  unfold nullableRewrite
  split
  · next hn ht => rw [hn, ht] at h; simp at h
  · rfl

/-- A value looked up in a well-formed entry list is well-formed. -/
theorem entriesWF_lookup {es : List (String × Json)} {k : String} {v : Json}
    (hwf : entriesWF es = true) (h : lookupKV es k = some v) : jwf v = true := by
  induction es with
  | nil => simp [lookupKV] at h
  | cons kv rest ih =>
    obtain ⟨k1, w⟩ := kv
    rw [entriesWF] at hwf
    simp only [Bool.and_eq_true] at hwf
    by_cases hk : k1 = k
    · simp only [lookupKV, if_pos hk, Option.some.injEq] at h
      exact h ▸ hwf.1
    · simp only [lookupKV, if_neg hk] at h
      exact ih hwf.2 h

set_option maxRecDepth 4000

/-- On a normalized value, `process_node` is the identity (master induction
on the size). -/
theorem processNode_norm_id_master :
    ∀ n : Nat,
      (∀ j : Json, sizeOf j ≤ n → jnorm j = true → processNode j = .ok j) ∧
      (∀ pes : List (String × Json), sizeOf pes ≤ n → entriesNorm pes = true →
        processEntries pes = .ok pes) := by
  intro n
  induction n using Nat.strong_induction_on with
  | _ n ih =>
    constructor
    · intro j hsz hn
      cases j with
      | null => simp [processNode]
      | bool b => simp [processNode]
      | num q => simp [processNode]
      | str s => simp [processNode]
      | arr xs => simp [processNode]
      | obj es =>
        rw [jnorm.eq_def] at hn
        dsimp only at hn
        simp only [Bool.and_eq_true] at hn
        obtain ⟨⟨⟨hg, hprops⟩, hitems⟩, hap⟩ := hn
        have hguard : nullFires es = false := by
          revert hg; cases nullFires es <;> simp
        have hsz2 : sizeOf es < n := by
          simp only [Json.obj.sizeOf_spec] at hsz; omega
        rw [processNode.eq_def]
        dsimp only
        rw [nullableRewrite_id hguard]
        have hP : ∃ p?, ((match h1 : lookupKV es "properties" with
            | none => Except.ok none
            | some (Json.obj pes) =>
              Except.map (fun pes2 => some (Json.obj pes2)) (processEntries pes)
            | some _ => Except.error "AttributeError: 'properties' is not a dict") :
              Except String (Option Json)) = Except.ok p? ∧
            maybeSet es "properties" p? = es := by
          rcases hp : lookupKV es "properties" with _ | pval
          · exact ⟨none, rfl, rfl⟩
          · rw [hp] at hprops
            cases pval with
            | obj pes =>
              simp only at hprops
              have hsp := sizeOf_lookupKV hp
              have hpe := (ih (sizeOf es) hsz2).2 pes
                (by simp only [Json.obj.sizeOf_spec] at hsp; omega) hprops
              exact ⟨some (.obj pes), by simp [hpe, Except.map],
                by simp [maybeSet, setKV_id hp]⟩
            | null => simp at hprops
            | bool b => simp at hprops
            | num q => simp at hprops
            | str s => simp at hprops
            | arr xs => simp at hprops
        have hI : ∃ i?, ((match h2 : lookupKV es "items" with
            | none => Except.ok none
            | some v => Except.map some (processNode v)) :
              Except String (Option Json)) = Except.ok i? ∧
            ∀ base : List (String × Json), lookupKV base "items" = lookupKV es "items" →
              maybeSet base "items" i? = base := by
          rcases hi : lookupKV es "items" with _ | v
          · exact ⟨none, rfl, fun base _ => rfl⟩
          · rw [hi] at hitems
            simp only at hitems
            have hsv := sizeOf_lookupKV hi
            have hv := (ih (sizeOf es) hsz2).1 v (by omega) hitems
            refine ⟨some v, by simp [hv, Except.map], fun base hb => ?_⟩
            simp [maybeSet, setKV_id hb]
        have hA : ∃ a?, ((match h3 : lookupKV es "additionalProperties" with
            | some (Json.obj aes) => Except.map some (processNode (Json.obj aes))
            | _ => Except.ok none) :
              Except String (Option Json)) = Except.ok a? ∧
            ∀ base : List (String × Json),
              lookupKV base "additionalProperties" = lookupKV es "additionalProperties" →
              maybeSet base "additionalProperties" a? = base := by
          rcases ha : lookupKV es "additionalProperties" with _ | aval
          · exact ⟨none, rfl, fun base _ => rfl⟩
          · rw [ha] at hap
            cases aval with
            | obj aes =>
              simp only at hap
              have hsa := sizeOf_lookupKV ha
              have hae := (ih (sizeOf es) hsz2).1 (.obj aes) (by omega) hap
              refine ⟨some (.obj aes), by simp [hae, Except.map], fun base hb => ?_⟩
              simp [maybeSet, setKV_id hb]
            | null => exact ⟨none, rfl, fun base _ => rfl⟩
            | bool b => exact ⟨none, rfl, fun base _ => rfl⟩
            | num q => exact ⟨none, rfl, fun base _ => rfl⟩
            | str s => exact ⟨none, rfl, fun base _ => rfl⟩
            | arr xs => exact ⟨none, rfl, fun base _ => rfl⟩
        obtain ⟨p?, hp1, hp2⟩ := hP
        obtain ⟨i?, hi1, hi2⟩ := hI
        obtain ⟨a?, ha1, ha2⟩ := hA
        rw [hp1, hi1, ha1]
        simp only [Except.bind, Except.map]
        rw [hp2]
        rw [hi2 es rfl]
        rw [ha2 es rfl]
    · intro pes hsz hn
      cases pes with
      | nil => simp [processEntries]
      | cons kv rest =>
        obtain ⟨k, v⟩ := kv
        simp only [entriesNorm, Bool.and_eq_true] at hn
        have hsz2 : sizeOf v < n ∧ sizeOf rest < n := by
          simp only [List.cons.sizeOf_spec, Prod.mk.sizeOf_spec] at hsz
          omega
        have hv := (ih (sizeOf v) hsz2.1).1 v le_rfl hn.1
        have hr := (ih (sizeOf rest) hsz2.2).2 rest le_rfl hn.2
        simp [processEntries, hv, hr, Except.bind, Except.map]

/-- Assembling the processed node from normalized parts yields a
normalized node. -/
theorem jnorm_build (es1 : List (String × Json)) (p? i? a? : Option Json)
    (hnf : nullFires es1 = false)
    (hP : (p? = none ∧ lookupKV es1 "properties" = none) ∨
      (∃ pes2, p? = some (.obj pes2) ∧ entriesNorm pes2 = true))
    (hI : (i? = none ∧ lookupKV es1 "items" = none) ∨
      (∃ v2, i? = some v2 ∧ jnorm v2 = true))
    (hA : (a? = none ∧ (match lookupKV es1 "additionalProperties" with
        | some (.obj _) => False
        | _ => True)) ∨
      (∃ a2, a? = some a2 ∧ jnorm a2 = true)) :
    jnorm (.obj (maybeSet (maybeSet (maybeSet es1 "properties" p?) "items" i?)
      "additionalProperties" a?)) = true := by
  rw [jnorm.eq_def]
  dsimp only
  simp only [Bool.and_eq_true]
  refine ⟨⟨⟨?_, ?_⟩, ?_⟩, ?_⟩
  · have h1 : lookupKV (maybeSet (maybeSet (maybeSet es1 "properties" p?) "items" i?)
        "additionalProperties" a?) "nullable" = lookupKV es1 "nullable" := by
      rw [lookup_maybeSet_ne _ _ _ _ (by decide), lookup_maybeSet_ne _ _ _ _ (by decide),
        lookup_maybeSet_ne _ _ _ _ (by decide)]
    have h2 : lookupKV (maybeSet (maybeSet (maybeSet es1 "properties" p?) "items" i?)
        "additionalProperties" a?) "type" = lookupKV es1 "type" := by
      rw [lookup_maybeSet_ne _ _ _ _ (by decide), lookup_maybeSet_ne _ _ _ _ (by decide),
        lookup_maybeSet_ne _ _ _ _ (by decide)]
    rw [nullFires_congr h1 h2, hnf]
    rfl
  · have h2 : lookupKV (maybeSet (maybeSet (maybeSet es1 "properties" p?) "items" i?)
        "additionalProperties" a?) "properties" =
        lookupKV (maybeSet es1 "properties" p?) "properties" := by
      rw [lookup_maybeSet_ne _ _ _ _ (by decide), lookup_maybeSet_ne _ _ _ _ (by decide)]
    rcases hP with ⟨hpn, hlook⟩ | ⟨pes2, hpe, hnorm⟩
    · subst hpn
      have h4 : lookupKV (maybeSet (maybeSet (maybeSet es1 "properties" none) "items" i?)
          "additionalProperties" a?) "properties" = none := h2.trans hlook
      rcases hlk : lookupKV (maybeSet (maybeSet (maybeSet es1 "properties" none) "items" i?)
          "additionalProperties" a?) "properties" with _ | pval
      · rfl
      · exact absurd (hlk.symm.trans h4) (by simp)
    · subst hpe
      have h4 : lookupKV (maybeSet (maybeSet (maybeSet es1 "properties" (some (Json.obj pes2)))
          "items" i?) "additionalProperties" a?) "properties" = some (Json.obj pes2) :=
        h2.trans (lookup_setKV_self es1 "properties" (Json.obj pes2))
      rcases hlk : lookupKV (maybeSet (maybeSet (maybeSet es1 "properties" (some (Json.obj pes2)))
          "items" i?) "additionalProperties" a?) "properties" with _ | pval
      · exact absurd (hlk.symm.trans h4) (by simp)
      · have h5 := hlk.symm.trans h4
        simp only [Option.some.injEq] at h5
        subst h5
        exact hnorm
  · have h2 : lookupKV (maybeSet (maybeSet (maybeSet es1 "properties" p?) "items" i?)
        "additionalProperties" a?) "items" =
        lookupKV (maybeSet (maybeSet es1 "properties" p?) "items" i?) "items" := by
      rw [lookup_maybeSet_ne _ _ _ _ (by decide)]
    rcases hI with ⟨hin, hlook⟩ | ⟨v2, hiv, hnorm⟩
    · subst hin
      have h4 : lookupKV (maybeSet (maybeSet (maybeSet es1 "properties" p?) "items" none)
          "additionalProperties" a?) "items" = none := by
        rw [h2]
        show lookupKV (maybeSet es1 "properties" p?) "items" = none
        rw [lookup_maybeSet_ne _ _ _ _ (by decide)]
        exact hlook
      rcases hlk : lookupKV (maybeSet (maybeSet (maybeSet es1 "properties" p?) "items" none)
          "additionalProperties" a?) "items" with _ | v
      · rfl
      · exact absurd (hlk.symm.trans h4) (by simp)
    · subst hiv
      have h4 : lookupKV (maybeSet (maybeSet (maybeSet es1 "properties" p?) "items" (some v2))
          "additionalProperties" a?) "items" = some v2 :=
        h2.trans (lookup_setKV_self _ "items" v2)
      rcases hlk : lookupKV (maybeSet (maybeSet (maybeSet es1 "properties" p?) "items" (some v2))
          "additionalProperties" a?) "items" with _ | v
      · exact absurd (hlk.symm.trans h4) (by simp)
      · have h5 := hlk.symm.trans h4
        simp only [Option.some.injEq] at h5
        subst h5
        exact hnorm
  · rcases hA with ⟨han, hshape⟩ | ⟨a2, hav, hnorm⟩
    · subst han
      have h4 : lookupKV (maybeSet (maybeSet (maybeSet es1 "properties" p?) "items" i?)
          "additionalProperties" none) "additionalProperties" =
          lookupKV es1 "additionalProperties" := by
        show lookupKV (maybeSet (maybeSet es1 "properties" p?) "items" i?)
          "additionalProperties" = lookupKV es1 "additionalProperties"
        rw [lookup_maybeSet_ne _ _ _ _ (by decide), lookup_maybeSet_ne _ _ _ _ (by decide)]
      rcases hlk : lookupKV (maybeSet (maybeSet (maybeSet es1 "properties" p?) "items" i?)
          "additionalProperties" none) "additionalProperties" with _ | aval
      · rfl
      · have h5 := hlk.symm.trans h4
        rw [← h5] at hshape
        cases aval with
        | obj aes => exact hshape.elim
        | null => rfl
        | bool b => rfl
        | num q => rfl
        | str s => rfl
        | arr xs => rfl
    · subst hav
      have h4 : lookupKV (maybeSet (maybeSet (maybeSet es1 "properties" p?) "items" i?)
          "additionalProperties" (some a2)) "additionalProperties" = some a2 :=
        lookup_setKV_self _ "additionalProperties" a2
      rcases hlk : lookupKV (maybeSet (maybeSet (maybeSet es1 "properties" p?) "items" i?)
          "additionalProperties" (some a2)) "additionalProperties" with _ | aval
      · exact absurd (hlk.symm.trans h4) (by simp)
      · have h5 := hlk.symm.trans h4
        simp only [Option.some.injEq] at h5
        subst h5
        cases aval with
        | obj aes => exact hnorm
        | null => rfl
        | bool b => rfl
        | num q => rfl
        | str s => rfl
        | arr xs => rfl

/-- Everything `process_node` returns successfully is normalized (master
induction on the size; the input must have unique keys, as Python dicts
do). -/
theorem processNode_norm_master :
    ∀ n : Nat,
      (∀ j : Json, sizeOf j ≤ n → jwf j = true → ∀ r, processNode j = .ok r →
        jnorm r = true) ∧
      (∀ pes : List (String × Json), sizeOf pes ≤ n → entriesWF pes = true →
        ∀ pes2, processEntries pes = .ok pes2 → entriesNorm pes2 = true) := by
  intro n
  induction n using Nat.strong_induction_on with
  | _ n ih =>
    constructor
    · intro j hsz hwf r hok
      cases j with
      | null => simp [processNode] at hok; subst hok; simp [jnorm]
      | bool b => simp [processNode] at hok; subst hok; simp [jnorm]
      | num q => simp [processNode] at hok; subst hok; simp [jnorm]
      | str s => simp [processNode] at hok; subst hok; simp [jnorm]
      | arr xs => simp [processNode] at hok; subst hok; simp [jnorm]
      | obj es =>
        rw [jwf.eq_def] at hwf
        dsimp only at hwf
        simp only [Bool.and_eq_true] at hwf
        obtain ⟨hnd, hewf⟩ := hwf
        have hsz2 : sizeOf es < n := by
          simp only [Json.obj.sizeOf_spec] at hsz; omega
        rw [processNode.eq_def] at hok
        dsimp only at hok
        have hP : (∃ e, ((match h1 : lookupKV (nullableRewrite es) "properties" with
            | none => Except.ok none
            | some (Json.obj pes) =>
              Except.map (fun pes2 => some (Json.obj pes2)) (processEntries pes)
            | some _ => Except.error "AttributeError: 'properties' is not a dict") :
              Except String (Option Json)) = Except.error e) ∨
          (∃ p?, ((match h1 : lookupKV (nullableRewrite es) "properties" with
            | none => Except.ok none
            | some (Json.obj pes) =>
              Except.map (fun pes2 => some (Json.obj pes2)) (processEntries pes)
            | some _ => Except.error "AttributeError: 'properties' is not a dict") :
              Except String (Option Json)) = Except.ok p? ∧
            ((p? = none ∧ lookupKV (nullableRewrite es) "properties" = none) ∨
             (∃ pes2, p? = some (.obj pes2) ∧ entriesNorm pes2 = true))) := by
          rcases hp : lookupKV (nullableRewrite es) "properties" with _ | pval
          · exact Or.inr ⟨none, rfl, Or.inl ⟨rfl, rfl⟩⟩
          · cases pval with
            | obj pes =>
              have hp2 : lookupKV es "properties" = some (.obj pes) :=
                (lookup_nullableRewrite_ne es "properties" (by decide) (by decide)).symm.trans hp
              have hjwf := entriesWF_lookup hewf hp2
              rw [jwf.eq_def] at hjwf
              dsimp only at hjwf
              simp only [Bool.and_eq_true] at hjwf
              have hsp := sizeOf_lookupKV hp2
              cases hpe : processEntries pes with
              | error e => exact Or.inl ⟨e, by simp [hpe, Except.map]⟩
              | ok pes2 =>
                refine Or.inr ⟨some (.obj pes2), by simp [hpe, Except.map],
                  Or.inr ⟨pes2, rfl, ?_⟩⟩
                exact (ih (sizeOf es) hsz2).2 pes
                  (by simp only [Json.obj.sizeOf_spec] at hsp; omega) hjwf.2 pes2 hpe
            | null => exact Or.inl ⟨_, rfl⟩
            | bool b => exact Or.inl ⟨_, rfl⟩
            | num q => exact Or.inl ⟨_, rfl⟩
            | str s => exact Or.inl ⟨_, rfl⟩
            | arr xs => exact Or.inl ⟨_, rfl⟩
        have hI : (∃ e, ((match h2 : lookupKV (nullableRewrite es) "items" with
            | none => Except.ok none
            | some v => Except.map some (processNode v)) :
              Except String (Option Json)) = Except.error e) ∨
          (∃ i?, ((match h2 : lookupKV (nullableRewrite es) "items" with
            | none => Except.ok none
            | some v => Except.map some (processNode v)) :
              Except String (Option Json)) = Except.ok i? ∧
            ((i? = none ∧ lookupKV (nullableRewrite es) "items" = none) ∨
             (∃ v2, i? = some v2 ∧ jnorm v2 = true))) := by
          rcases hi : lookupKV (nullableRewrite es) "items" with _ | v
          · exact Or.inr ⟨none, rfl, Or.inl ⟨rfl, rfl⟩⟩
          · have hi2 : lookupKV es "items" = some v :=
              (lookup_nullableRewrite_ne es "items" (by decide) (by decide)).symm.trans hi
            have hjwf := entriesWF_lookup hewf hi2
            have hsv := sizeOf_lookupKV hi2
            cases hv : processNode v with
            | error e => exact Or.inl ⟨e, by simp [hv, Except.map]⟩
            | ok v2 =>
              exact Or.inr ⟨some v2, by simp [hv, Except.map],
                Or.inr ⟨v2, rfl, (ih (sizeOf es) hsz2).1 v (by omega) hjwf v2 hv⟩⟩
        have hA : (∃ e, ((match h3 : lookupKV (nullableRewrite es) "additionalProperties" with
            | some (Json.obj aes) => Except.map some (processNode (Json.obj aes))
            | _ => Except.ok none) :
              Except String (Option Json)) = Except.error e) ∨
          (∃ a?, ((match h3 : lookupKV (nullableRewrite es) "additionalProperties" with
            | some (Json.obj aes) => Except.map some (processNode (Json.obj aes))
            | _ => Except.ok none) :
              Except String (Option Json)) = Except.ok a? ∧
            ((a? = none ∧ (match lookupKV (nullableRewrite es) "additionalProperties" with
                | some (.obj _) => False
                | _ => True)) ∨
             (∃ a2, a? = some a2 ∧ jnorm a2 = true))) := by
          rcases ha : lookupKV (nullableRewrite es) "additionalProperties" with _ | aval
          · exact Or.inr ⟨none, rfl, Or.inl ⟨rfl, trivial⟩⟩
          · cases aval with
            | obj aes =>
              have ha2 : lookupKV es "additionalProperties" = some (.obj aes) :=
                (lookup_nullableRewrite_ne es "additionalProperties"
                  (by decide) (by decide)).symm.trans ha
              have hjwf := entriesWF_lookup hewf ha2
              have hsa := sizeOf_lookupKV ha2
              cases hae : processNode (.obj aes) with
              | error e => exact Or.inl ⟨e, by simp [hae, Except.map]⟩
              | ok a2 =>
                exact Or.inr ⟨some a2, by simp [hae, Except.map],
                  Or.inr ⟨a2, rfl, (ih (sizeOf es) hsz2).1 (.obj aes) (by omega) hjwf a2 hae⟩⟩
            | null => exact Or.inr ⟨none, rfl, Or.inl ⟨rfl, trivial⟩⟩
            | bool b => exact Or.inr ⟨none, rfl, Or.inl ⟨rfl, trivial⟩⟩
            | num q => exact Or.inr ⟨none, rfl, Or.inl ⟨rfl, trivial⟩⟩
            | str s => exact Or.inr ⟨none, rfl, Or.inl ⟨rfl, trivial⟩⟩
            | arr xs => exact Or.inr ⟨none, rfl, Or.inl ⟨rfl, trivial⟩⟩
        rcases hP with ⟨e, hPe⟩ | ⟨p?, hp1, hPd⟩
        · rw [hPe] at hok
          simp [Except.bind] at hok
        rw [hp1] at hok
        simp only [Except.bind] at hok
        rcases hI with ⟨e, hIe⟩ | ⟨i?, hi1, hId⟩
        · rw [hIe] at hok
          simp at hok
        rw [hi1] at hok
        simp only at hok
        rcases hA with ⟨e, hAe⟩ | ⟨a?, ha1, hAd⟩
        · rw [hAe] at hok
          simp [Except.map] at hok
        rw [ha1] at hok
        simp only [Except.map, Except.ok.injEq] at hok
        subst hok
        exact jnorm_build (nullableRewrite es) p? i? a?
          (nullFires_nullableRewrite hnd) hPd hId hAd
    · intro pes hsz hewf pes2 hok
      cases pes with
      | nil =>
        simp [processEntries] at hok
        subst hok
        simp [entriesNorm]
      | cons kv rest =>
        obtain ⟨k, v⟩ := kv
        simp only [entriesWF, Bool.and_eq_true] at hewf
        have hsz2 : sizeOf v < n ∧ sizeOf rest < n := by
          simp only [List.cons.sizeOf_spec, Prod.mk.sizeOf_spec] at hsz
          omega
        simp only [processEntries] at hok
        cases hv : processNode v with
        | error e => rw [hv] at hok; simp [Except.bind] at hok
        | ok v2 =>
          rw [hv] at hok
          simp only [Except.bind] at hok
          cases hr : processEntries rest with
          | error e => rw [hr] at hok; simp [Except.map] at hok
          | ok rest2 =>
            rw [hr] at hok
            simp only [Except.map, Except.ok.injEq] at hok
            subst hok
            simp only [entriesNorm, Bool.and_eq_true]
            exact ⟨(ih (sizeOf v) hsz2.1).1 v le_rfl hewf.1 v2 hv,
              (ih (sizeOf rest) hsz2.2).2 rest le_rfl hewf.2 rest2 hr⟩

/-- A nullable schema node, as loaded from a spec. -/
def c8Schema : Json := .obj [("type", .str "string"), ("nullable", .bool true)]

/-- C8: nullable normalization is idempotent. Over every well-formed schema
(unique keys at each object, as Python dicts guarantee), running
`_process_nullable_fields` twice — errors propagating — equals running it
once, and running it on any already-normalized schema (any successful
output of the normalization) is a no-op. -/
theorem processNullableFields_idempotent (j : Json) (h : jwf j = true) :
    (processNullableFields j).bind processNullableFields = processNullableFields j ∧
    (∀ r, processNullableFields j = .ok r → processNullableFields r = .ok r) := by
  have h2 : ∀ r, processNullableFields j = .ok r → processNullableFields r = .ok r := by
    intro r hok
    have hn := (processNode_norm_master (sizeOf j)).1 j le_rfl h r hok
    exact (processNode_norm_id_master (sizeOf r)).1 r le_rfl hn
  refine ⟨?_, h2⟩
  cases hok : processNullableFields j with
  | error e => simp [Except.bind]
  | ok r => simp [Except.bind, h2 r hok]

/-- C8 witness: a concrete `nullable: true` schema node. -/
theorem processNullableFields_idempotent_witness :
    jwf c8Schema = true ∧
    (processNullableFields c8Schema).bind processNullableFields =
      processNullableFields c8Schema :=
  ⟨by simp [c8Schema, jwf, nodupKeys, entriesWF, lookupKV],
   (processNullableFields_idempotent c8Schema
     (by simp [c8Schema, jwf, nodupKeys, entriesWF, lookupKV])).1⟩

/-- One security-header loop step only appends its warnings. -/
theorem secStep_eq (hs : List (String × String)) (res : ValidationResult)
    (hv : String × Option String) :
    secStep hs res hv = { res with warnings := res.warnings ++ secWarnOne hs hv } := by
  obtain ⟨name, opt⟩ := hv
  unfold secStep secWarnOne
  cases lookupKV hs name with
  | none => rfl
  | some actual =>
    cases opt with
    | none => show res = _; simp
    | some expected =>
      dsimp only
      by_cases hc : (expected ≠ "" && actual ≠ expected) = true
      · rw [if_pos hc, if_pos hc]; rfl
      · rw [if_neg hc, if_neg hc]; show res = _; simp

/-- Folding the security-header loop appends the warnings of each step. -/
theorem secFold_eq (hs : List (String × String)) :
    ∀ (table : List (String × Option String)) (res : ValidationResult),
    table.foldl (secStep hs) res =
      { res with warnings := res.warnings ++ (table.map (secWarnOne hs)).flatten } := by
  intro table
  induction table with
  | nil => intro res; simp
  | cons hv rest ih =>
    intro res
    simp only [List.foldl_cons, List.map_cons, List.flatten, ih, secStep_eq]
    simp

/-- `_check_security_headers` only appends warnings: `valid` and `errors`
are untouched. -/
theorem checkSecurityHeaders_eq (hs : List (String × String))
    (res : ValidationResult) :
    checkSecurityHeaders hs res =
      { res with warnings := res.warnings ++
          (securityHeadersTable.map (secWarnOne hs)).flatten } :=
  secFold_eq hs securityHeadersTable res

/-- The final message assignment never changes the warnings. -/
theorem finalizeHeaders_warnings (res : ValidationResult) :
    (finalizeHeaders res).warnings = res.warnings := by
  unfold finalizeHeaders
  split <;> rfl

/-- With a non-empty expected-headers argument, the warnings of
`HeaderValidator.validate` end with the security-header warnings. -/
theorem headerValidate_warnings_split (r : HTTPResponse)
    (exp : List (String × Option String)) (h : exp.isEmpty = false) :
    ∃ pre : List VEntry,
      (headerValidate r exp).warnings = pre ++
        ((securityHeadersTable.map (secWarnOne (lowerHeaders r))).flatten) := by
  simp only [headerValidate, h, Bool.false_eq_true, if_false]
  rw [finalizeHeaders_warnings, checkSecurityHeaders_eq]
  exact ⟨_, rfl⟩

/-- A response with none of the security headers set. -/
def c5Resp : HTTPResponse := ⟨[], 200, ""⟩

/-- C5 counterexample: with an empty expected-headers argument
`HeaderValidator.validate` returns immediately — no security-header check
runs, so a response missing all five security headers gets no warnings,
contradicting "regardless of the expected-headers argument (including when
it is empty)". -/
theorem headerValidator_empty_expected_cex :
    (headerValidate c5Resp []).warnings = [] ∧
    (headerValidate c5Resp []).valid = true :=
  ⟨rfl, rfl⟩

/-- C5 (amended): when the expected-headers argument is non-empty, the five
fixed security headers are checked — a warning for each absent one, and a
warning when x-content-type-options is present with a value other than
"nosniff" — and the security check never changes `valid` or `errors`; when
the expected-headers argument is empty, validate returns immediately with a
valid result and no warnings. -/
theorem headerValidator_security_amended :
    (∀ (r : HTTPResponse) (exp : List (String × Option String)), exp ≠ [] →
      (∀ name opt, (name, opt) ∈ securityHeadersTable →
        lookupKV (lowerHeaders r) name = none →
        VEntry.mk ("Missing security header: " ++ name) (.obj []) ∈
          (headerValidate r exp).warnings) ∧
      (∀ v, lookupKV (lowerHeaders r)
          "x-content-type-options" = some v → v ≠ "nosniff" →
        VEntry.mk "Security header x-content-type-options has unexpected value"
            (.obj [("expected", Json.str "nosniff"), ("actual", Json.str v)]) ∈
          (headerValidate r exp).warnings)) ∧
    (∀ hs res, (checkSecurityHeaders hs res).valid = res.valid ∧
      (checkSecurityHeaders hs res).errors = res.errors) ∧
    (∀ r : HTTPResponse,
      headerValidate r [] = ValidationResult.init true "No expected headers specified") := by
  refine ⟨?_, ?_, fun r => rfl⟩
  · intro r exp hne
    have hie : exp.isEmpty = false := by
      cases exp with
      | nil => exact absurd rfl hne
      | cons a l => rfl
    obtain ⟨pre, hpre⟩ := headerValidate_warnings_split r exp hie
    constructor
    · intro name opt hmem hlook
      rw [hpre]
      refine List.mem_append_right _ (List.mem_flatten.mpr
        ⟨secWarnOne (lowerHeaders r) (name, opt), ?_, ?_⟩)
      · exact List.mem_map.mpr ⟨(name, opt), hmem, rfl⟩
      · simp [secWarnOne, hlook]
    · intro v hlook hv
      rw [hpre]
      refine List.mem_append_right _ (List.mem_flatten.mpr
        ⟨secWarnOne (lowerHeaders r) ("x-content-type-options", some "nosniff"), ?_, ?_⟩)
      · exact List.mem_map.mpr ⟨("x-content-type-options", some "nosniff"),
          by simp [securityHeadersTable], rfl⟩
      · simp [secWarnOne, hlook, hv]
  · intro hs res
    rw [checkSecurityHeaders_eq]
    exact ⟨rfl, rfl⟩

/-- C5 witness: a concrete response whose x-content-type-options value is
not "nosniff", validated with one (non-empty) expected header. -/
theorem headerValidator_security_amended_witness :
    (([("content-type", none)] : List (String × Option String)) ≠ []) ∧
    VEntry.mk "Security header x-content-type-options has unexpected value"
        (.obj [("expected", Json.str "nosniff"), ("actual", Json.str "sniff-away")]) ∈
      (headerValidate ⟨[("X-Content-Type-Options", "sniff-away")], 200, ""⟩
        [("content-type", none)]).warnings := by
  refine ⟨by simp, ?_⟩
  refine (headerValidator_security_amended.1
    ⟨[("X-Content-Type-Options", "sniff-away")], 200, ""⟩
    [("content-type", none)] (by simp)).2 "sniff-away" ?_ (by decide)
  rfl

/-- C3 witness: the amended average on a concrete two-result list. -/
theorem getSummary_average_missing_as_zero_witness :
    c3Results ≠ [] ∧
    (getSummary c3Results).average_response_time =
      some ((c3Results.filterMap EngineResult.response_time).sum /
        ((c3Results.length : ℚ))) :=
  ⟨by simp [c3Results],
   (getSummary_average_missing_as_zero c3Results (by simp [c3Results])).1⟩

/-! ## Theorems: C1, C4 -/

/-- C1 (code evaluation): `get_endpoint` reads `self.path`, an attribute
`__init__` never assigns (the populated attribute is `self.paths`), so
every call — in particular for any (path, method) absent from the
specification — raises `AttributeError`, which `validate_endpoint` does
not catch (the lookup precedes its `try:` and only
`requests.RequestException` is handled). The claimed immediate-failure
dict ("Endpoint not found in specification", duration 0) is never
returned; the repository's own `test_get_endpoint` requires a non-None
return on `('/users', 'GET')` and fails the same way. -/
theorem validateEndpoint_attribute_error (specPath : String) (spec : Json)
    (path method : String) (transport : Unit → Except PyErr Json)
    (requestFailedDict : String → Json) :
    validateEndpoint specPath spec path method transport requestFailedDict =
      .error (.attributeError "'OpenAPIParser' object has no attribute 'path'") ∧
    getEndpoint specPath spec path method =
      .error (.attributeError "'OpenAPIParser' object has no attribute 'path'") :=
  ⟨rfl, rfl⟩

/-- A response whose content type contains "json" but is neither an
`application/json` content type nor `/json`-suffixed. -/
def c4Resp : HTTPResponse := ⟨[("content-type", "application/problem+json")], 200, ""⟩

/-- C4 counterexample: `application/problem+json` contains the substring
"json" (case-insensitively), yet `_is_json_response` classifies it as not
JSON, so `validate` fails immediately with "Response is not JSON". -/
theorem isJsonResponse_cex :
    isJsonResponse c4Resp = false ∧
    strHasSub (pyLower ((ciGet c4Resp.headers "content-type").getD "")) "json" = true := by
  decide

/-- C4 (amended): a response is classified as JSON exactly when its
lower-cased content-type contains `application/json` or ends with `/json`;
whenever it is not so classified, `validate` returns — for every JSON
parser and every schema machinery, hence without parsing or schema
checking — the single-error failure "Response is not JSON" recording the
content type and status code. -/
theorem schemaValidator_json_classification :
    (∀ r : HTTPResponse, isJsonResponse r =
      (strHasSub (pyLower ((ciGet r.headers "content-type").getD "")) "application/json"
        || strEndsWith (pyLower ((ciGet r.headers "content-type").getD "")) "/json")) ∧
    (∀ (pyStr : Json → String) (parse : String → Except String Json)
        (iterErrors : Json → Json → Json → List Draft7Error)
        (r : HTTPResponse) (sch spec : Json), isJsonResponse r = false →
      schemaValidate pyStr parse iterErrors r sch spec =
        addError (ValidationResult.init true) "Response is not JSON"
          (some (.obj
            [("content_type", .str ((ciGet r.headers "content-type").getD "unknown")),
             ("status_code", .num (r.status_code : ℚ))]))) := by
  constructor
  · intro r; rfl
  · intro pyStr parse iterErrors r sch spec h
    simp [schemaValidate, h]

/-- C4 witness: the amended behaviour evaluated on the
`application/problem+json` response. -/
theorem schemaValidator_json_classification_witness :
    isJsonResponse c4Resp = false ∧
    schemaValidate (fun _ => "") (fun _ => .error "no parse") (fun _ _ _ => [])
        c4Resp (.obj []) (.obj []) =
      addError (ValidationResult.init true) "Response is not JSON"
        (some (.obj
          [("content_type", .str ((ciGet c4Resp.headers "content-type").getD "unknown")),
           ("status_code", .num (c4Resp.status_code : ℚ))])) :=
  ⟨by decide,
   schemaValidator_json_classification.2 (fun _ => "") (fun _ => .error "no parse")
     (fun _ _ _ => []) c4Resp (.obj []) (.obj []) (by decide)⟩

/-! ## Theorems: C7 -/

/-- The allow-list test on the final path segment, as a proposition. -/
theorem lastKeyMatch_iff (l : List PathSeg) :
    ((match l.getLast? with
      | some (.key s) => nullAllowList.contains s
      | _ => false) = true) ↔
    (∃ s, l.getLast? = some (.key s) ∧ s ∈ nullAllowList) := by
  rcases hl : l.getLast? with _ | seg
  · simp
  · cases seg with
    | key s => simp
    | idx n => simp

/-- `add_warning` never touches `errors` or `valid`. -/
theorem addWarning_preserves (r : ValidationResult) (m : String) (d : Option Json) :
    (addWarning r m d).errors = r.errors ∧ (addWarning r m d).valid = r.valid :=
  ⟨rfl, rfl⟩

/-- `_check_empty_fields` only adds warnings: `errors` and `valid` are
untouched (induction on size, mutually with the loop body). -/
theorem checkEmptyFields_preserves : ∀ n : Nat,
    (∀ (es : List (String × Json)) (path : String) (res : ValidationResult),
      sizeOf es ≤ n →
      (checkEmptyFields es path res).errors = res.errors ∧
      (checkEmptyFields es path res).valid = res.valid) ∧
    (∀ (k : String) (v : Json) (path : String) (res : ValidationResult),
      sizeOf v ≤ n →
      (checkEmptyField k v path res).errors = res.errors ∧
      (checkEmptyField k v path res).valid = res.valid) := by
  intro n
  induction n using Nat.strong_induction_on with
  | _ n ih =>
    constructor
    · intro es path res hsz
      cases es with
      | nil =>
        simp [checkEmptyFields]
      | cons kv rest =>
        obtain ⟨k, v⟩ := kv
        have hr : sizeOf rest < n := by
          simp only [List.cons.sizeOf_spec, Prod.mk.sizeOf_spec] at hsz; omega
        have hv : sizeOf v < n := by
          simp only [List.cons.sizeOf_spec, Prod.mk.sizeOf_spec] at hsz; omega
        simp only [checkEmptyFields]
        have h1 := ((ih (sizeOf rest) hr).1) rest path (checkEmptyField k v path res) le_rfl
        have h2 := ((ih (sizeOf v) hv).2) k v path res le_rfl
        exact ⟨h1.1.trans h2.1, h1.2.trans h2.2⟩
    · intro k v path res hsz
      rw [checkEmptyField.eq_def]
      dsimp only
      cases v with
      | null => exact ⟨rfl, rfl⟩
      | bool b => exact ⟨rfl, rfl⟩
      | num q => exact ⟨rfl, rfl⟩
      | str s =>
        dsimp only
        by_cases hs : s = ""
        · rw [if_pos hs]; exact ⟨rfl, rfl⟩
        · rw [if_neg hs]; exact ⟨rfl, rfl⟩
      | arr xs =>
        cases xs with
        | nil => exact ⟨rfl, rfl⟩
        | cons x xs2 => exact ⟨rfl, rfl⟩
      | obj oes =>
        cases oes with
        | nil => exact ⟨rfl, rfl⟩
        | cons e2 es2 =>
          have hin : sizeOf (e2 :: es2) < n := by
            simp only [Json.obj.sizeOf_spec] at hsz; omega
          exact ((ih (sizeOf (e2 :: es2)) hin).1) (e2 :: es2) _ res le_rfl

/-- `_validate_response_structure` only adds warnings and details:
`errors` and `valid` are untouched. -/
theorem validateResponseStructure_preserves (data : Json) (res : ValidationResult) :
    (validateResponseStructure data res).errors = res.errors ∧
    (validateResponseStructure data res).valid = res.valid := by
  cases data with
  | obj es =>
    rw [validateResponseStructure.eq_def]
    dsimp only
    have hfin : ∀ res3 : ValidationResult, res3.errors = res.errors →
        res3.valid = res.valid →
        ((checkEmptyFields es "" res3).errors = res.errors ∧
         (checkEmptyFields es "" res3).valid = res.valid) := by
      intro res3 he hv
      exact ⟨((checkEmptyFields_preserves (sizeOf es)).1 es "" res3 le_rfl).1.trans he,
        ((checkEmptyFields_preserves (sizeOf es)).1 es "" res3 le_rfl).2.trans hv⟩
    rcases lookupKV es "error" with _ | val
    · rcases lookupKV es "data" with _ | dval
      · exact hfin _ rfl rfl
      · cases dval with
        | arr xs =>
          by_cases hc : ((lookupKV es "page").isSome || (lookupKV es "limit").isSome ||
              (lookupKV es "total").isSome) = true
          · rw [if_pos hc]; exact hfin _ rfl rfl
          · rw [if_neg hc]; exact hfin _ rfl rfl
        | null => exact hfin _ rfl rfl
        | bool b => exact hfin _ rfl rfl
        | num q => exact hfin _ rfl rfl
        | str s => exact hfin _ rfl rfl
        | obj oes => exact hfin _ rfl rfl
    · cases val with
      | str msg =>
        rcases lookupKV es "data" with _ | dval
        · exact hfin _ rfl rfl
        · cases dval with
          | arr xs =>
            by_cases hc : ((lookupKV es "page").isSome || (lookupKV es "limit").isSome ||
                (lookupKV es "total").isSome) = true
            · rw [if_pos hc]; exact hfin _ rfl rfl
            · rw [if_neg hc]; exact hfin _ rfl rfl
          | null => exact hfin _ rfl rfl
          | bool b => exact hfin _ rfl rfl
          | num q => exact hfin _ rfl rfl
          | str s => exact hfin _ rfl rfl
          | obj oes => exact hfin _ rfl rfl
      | null =>
        rcases lookupKV es "data" with _ | dval
        · exact hfin _ rfl rfl
        · cases dval with
          | arr xs =>
            by_cases hc : ((lookupKV es "page").isSome || (lookupKV es "limit").isSome ||
                (lookupKV es "total").isSome) = true
            · rw [if_pos hc]; exact hfin _ rfl rfl
            · rw [if_neg hc]; exact hfin _ rfl rfl
          | null => exact hfin _ rfl rfl
          | bool b => exact hfin _ rfl rfl
          | num q => exact hfin _ rfl rfl
          | str s => exact hfin _ rfl rfl
          | obj oes => exact hfin _ rfl rfl
      | bool b =>
        rcases lookupKV es "data" with _ | dval
        · exact hfin _ rfl rfl
        · cases dval with
          | arr xs =>
            by_cases hc : ((lookupKV es "page").isSome || (lookupKV es "limit").isSome ||
                (lookupKV es "total").isSome) = true
            · rw [if_pos hc]; exact hfin _ rfl rfl
            · rw [if_neg hc]; exact hfin _ rfl rfl
          | null => exact hfin _ rfl rfl
          | bool b2 => exact hfin _ rfl rfl
          | num q => exact hfin _ rfl rfl
          | str s => exact hfin _ rfl rfl
          | obj oes => exact hfin _ rfl rfl
      | num q =>
        rcases lookupKV es "data" with _ | dval
        · exact hfin _ rfl rfl
        · cases dval with
          | arr xs =>
            by_cases hc : ((lookupKV es "page").isSome || (lookupKV es "limit").isSome ||
                (lookupKV es "total").isSome) = true
            · rw [if_pos hc]; exact hfin _ rfl rfl
            · rw [if_neg hc]; exact hfin _ rfl rfl
          | null => exact hfin _ rfl rfl
          | bool b => exact hfin _ rfl rfl
          | num q2 => exact hfin _ rfl rfl
          | str s => exact hfin _ rfl rfl
          | obj oes => exact hfin _ rfl rfl
      | arr xs =>
        rcases lookupKV es "data" with _ | dval
        · exact hfin _ rfl rfl
        · cases dval with
          | arr xs2 =>
            by_cases hc : ((lookupKV es "page").isSome || (lookupKV es "limit").isSome ||
                (lookupKV es "total").isSome) = true
            · rw [if_pos hc]; exact hfin _ rfl rfl
            · rw [if_neg hc]; exact hfin _ rfl rfl
          | null => exact hfin _ rfl rfl
          | bool b => exact hfin _ rfl rfl
          | num q => exact hfin _ rfl rfl
          | str s => exact hfin _ rfl rfl
          | obj oes => exact hfin _ rfl rfl
      | obj oes =>
        rcases lookupKV es "data" with _ | dval
        · exact hfin _ rfl rfl
        · cases dval with
          | arr xs =>
            by_cases hc : ((lookupKV es "page").isSome || (lookupKV es "limit").isSome ||
                (lookupKV es "total").isSome) = true
            · rw [if_pos hc]; exact hfin _ rfl rfl
            · rw [if_neg hc]; exact hfin _ rfl rfl
          | null => exact hfin _ rfl rfl
          | bool b => exact hfin _ rfl rfl
          | num q => exact hfin _ rfl rfl
          | str s => exact hfin _ rfl rfl
          | obj oes2 => exact hfin _ rfl rfl
  | null => exact ⟨rfl, rfl⟩
  | bool b => exact ⟨rfl, rfl⟩
  | num q => exact ⟨rfl, rfl⟩
  | str s => exact ⟨rfl, rfl⟩
  | arr xs => exact ⟨rfl, rfl⟩

/-- Folding `add_error` over the kept schema violations appends exactly
their entries. -/
theorem addErrorFold_errors (lst : List (String × Json)) :
    ∀ res : ValidationResult,
    (lst.foldl (fun acc err =>
        addError acc ("Schema validation error: " ++ err.1) (some err.2)) res).errors =
      res.errors ++ lst.map (fun err =>
        VEntry.mk ("Schema validation error: " ++ err.1) err.2) := by
  induction lst with
  | nil => intro res; simp
  | cons e rest ih =>
    intro res
    simp only [List.foldl_cons]
    rw [ih]
    simp [addError]

/-- The trailing message assignment keeps the errors. -/
theorem msgIte_errors (x : ValidationResult) (c : Prop) [Decidable c] (m : String) :
    (if c then { x with message := m } else x).errors = x.errors := by
  split <;> rfl

/-- A draft-7 type violation at the instance root: null instance, empty
instance path, `readOnly` mentioned in the schema path. -/
def c7Err : Draft7Error :=
  ⟨"None is not of type 'string'", .null, [], [.key "readOnly", .key "type"],
   "type", .str "string"⟩

/-- C7 counterexample: this violation satisfies the claim's suppression
condition (null instance, keyword `type` on a readOnly-tagged schema
path), yet `_is_acceptable_null_error` returns False — its
`if not path: return False` fires first — and the violation is recorded
as an error. -/
theorem isAcceptableNullError_cex :
    isAcceptableNullError c7Err = false ∧
    c7Err.instanceVal = Json.null ∧
    c7Err.validator = "type" ∧
    strHasSub (renderDeque c7Err.schema_path) "readOnly" = true ∧
    validateAgainstSchema (fun _ => "None") (fun _ _ _ => [c7Err])
        Json.null (.obj []) (.obj []) =
      [(c7Err.message, mkErrorDetails (fun _ => "None") c7Err)] := by
  have h1 : processNullableFields (.obj []) = .ok (.obj []) := by
    simp [processNullableFields, processNode, nullableRewrite, lookupKV,
      maybeSet, Except.bind, Except.map]
  have h2 : isAcceptableNullError c7Err = false := by decide
  refine ⟨h2, rfl, rfl, by decide, ?_⟩
  simp [validateAgainstSchema, h1, h2]

/-- C7 (amended): a draft-7 violation is suppressed exactly when its
instance value is null, its instance path is non-empty, and either the
violated keyword is `type` with `readOnly` occurring in the rendered
schema path, or the final instance-path segment is in the allow-list
next / previous / url / description / results; every other violation is
kept by `_validate_against_schema` and recorded as an error entry of the
ValidationResult built by `validate`. -/
theorem schemaViolation_suppression :
    (∀ e : Draft7Error, isAcceptableNullError e = true ↔
      (e.instanceVal = .null ∧ e.absolute_path ≠ [] ∧
        ((e.validator = "type" ∧
            strHasSub (renderDeque e.schema_path) "readOnly" = true) ∨
         (∃ s, e.absolute_path.getLast? = some (.key s) ∧ s ∈ nullAllowList)))) ∧
    (∀ (pyStr : Json → String) (iterErrors : Json → Json → Json → List Draft7Error)
        (data schema full_spec processed : Json),
      processNullableFields schema = .ok processed →
      validateAgainstSchema pyStr iterErrors data schema full_spec =
        (iterErrors processed full_spec data).filterMap (fun e =>
          if isAcceptableNullError e then none
          else some (e.message, mkErrorDetails pyStr e))) ∧
    (∀ (pyStr : Json → String) (parse : String → Except String Json)
        (iterErrors : Json → Json → Json → List Draft7Error)
        (r : HTTPResponse) (sch spec data : Json),
      isJsonResponse r = true → parse r.text = .ok data → jsonTruthy sch = true →
      (schemaValidate pyStr parse iterErrors r sch spec).errors =
        (validateAgainstSchema pyStr iterErrors data sch spec).map
          (fun err => VEntry.mk ("Schema validation error: " ++ err.1) err.2)) := by
  refine ⟨?_, ?_, ?_⟩
  · intro e
    obtain ⟨msg, inst, ap, sp, vld, vv⟩ := e
    cases inst with
    | null =>
      cases ap with
      | nil => simp [isAcceptableNullError]
      | cons a as =>
        simp only [isAcceptableNullError, Bool.or_eq_true, Bool.and_eq_true,
          decide_eq_true_eq, lastKeyMatch_iff]
        simp
    | bool b => simp [isAcceptableNullError]
    | num q => simp [isAcceptableNullError]
    | str s => simp [isAcceptableNullError]
    | arr xs => simp [isAcceptableNullError]
    | obj oes => simp [isAcceptableNullError]
  · intro pyStr iterErrors data schema full_spec processed hproc
    simp [validateAgainstSchema, hproc]
  · intro pyStr parse iterErrors r sch spec data hjson hparse htruthy
    simp only [schemaValidate, hjson, Bool.not_true, Bool.false_eq_true, if_false,
      hparse, htruthy, if_true]
    rw [msgIte_errors]
    rw [(validateResponseStructure_preserves data _).1]
    rw [addErrorFold_errors]
    simp [ValidationResult.init]

/-- C7 witness: the exact-filter characterization on an empty schema and
an empty violation list. -/
theorem schemaViolation_suppression_witness :
    processNullableFields (.obj []) = .ok (.obj []) ∧
    validateAgainstSchema (fun _ => "") (fun _ _ _ => ([] : List Draft7Error))
        Json.null (.obj []) (.obj []) =
      ([] : List Draft7Error).filterMap (fun e =>
        if isAcceptableNullError e then none
        else some (e.message, mkErrorDetails (fun _ => "") e)) := by
  have h1 : processNullableFields (.obj []) = .ok (.obj []) := by
    simp [processNullableFields, processNode, nullableRewrite, lookupKV,
      maybeSet, Except.bind, Except.map]
  exact ⟨h1, schemaViolation_suppression.2.1 (fun _ => "") (fun _ _ _ => [])
    Json.null (.obj []) (.obj []) (.obj []) h1⟩

/-! ## Theorems: C2 -/

/-- Splitting a separator-free list yields the list itself. -/
theorem splitOnChar_noSep (c : Char) :
    ∀ l : List Char, (∀ d ∈ l, d ≠ c) → splitOnChar c l = [l] := by
  intro l
  induction l with
  | nil => intro _; rfl
  | cons d rest ih =>
    intro h
    have hd : d ≠ c := h d (List.mem_cons_self d rest)
    simp only [splitOnChar, if_neg hd, ih (fun x hx => h x (List.mem_cons_of_mem d hx))]

/-- Splitting at the first separator occurrence splits off the prefix run. -/
theorem splitOnChar_append (c : Char) :
    ∀ (xs ys : List Char), (∀ d ∈ xs, d ≠ c) →
    splitOnChar c (xs ++ c :: ys) = xs :: splitOnChar c ys := by
  intro xs
  induction xs with
  | nil => intro ys _; simp [splitOnChar]
  | cons d xs2 ih =>
    intro ys h
    have hd : d ≠ c := h d (List.mem_cons_self d xs2)
    have h2 := ih ys (fun x hx => h x (List.mem_cons_of_mem d hx))
    simp only [List.cons_append, splitOnChar, if_neg hd]
    simp only [List.append_eq]
    rw [h2]

/-- Splitting the slash-joined segments recovers the segments. -/
theorem splitOnChar_join :
    ∀ segs : List String, segs ≠ [] → (∀ s ∈ segs, '/' ∉ s.data) →
    splitOnChar '/' (joinSlashChars segs) = segs.map String.data := by
  intro segs
  induction segs with
  | nil => intro h _; exact absurd rfl h
  | cons s rest ih =>
    intro _ hseg
    have hs : ∀ d ∈ s.data, d ≠ '/' := by
      intro d hd he
      exact hseg s (List.mem_cons_self s rest) (he ▸ hd)
    cases rest with
    | nil =>
      simp only [joinSlashChars, List.map]
      exact splitOnChar_noSep '/' s.data hs
    | cons r2 rs =>
      simp only [joinSlashChars, List.map]
      rw [splitOnChar_append '/' s.data _ hs,
        ih (by simp) (fun x hx => hseg x (List.mem_cons_of_mem s hx))]
      rfl

/-- `refWalk` succeeds exactly as the dotted-path walk does, with the same
value. -/
theorem refWalk_ok_iff :
    ∀ (segs : List String) (spec : Json) (v : Json),
    refWalk spec segs = .ok v ↔ walkPath spec segs = some v := by
  intro segs
  induction segs with
  | nil =>
    intro spec v
    simp [refWalk, walkPath]
  | cons s ss ih =>
    intro spec v
    cases spec with
    | obj es =>
      simp only [refWalk, walkPath]
      cases lookupKV es s with
      | some w => exact ih w v
      | none => simp
    | null => simp [refWalk, walkPath]
    | bool b => simp [refWalk, walkPath]
    | num q => simp [refWalk, walkPath]
    | str s2 => simp [refWalk, walkPath]
    | arr xs => simp [refWalk, walkPath]

/-- Every `refWalk` failure is a `refError` naming a segment. -/
theorem refWalk_error_shape :
    ∀ (segs : List String) (spec : Json) (e : RefErr),
    refWalk spec segs = .error e → ∃ s, e = .refError s := by
  intro segs
  induction segs with
  | nil => intro spec e h; simp [refWalk] at h
  | cons s ss ih =>
    intro spec e h
    cases spec with
    | obj es =>
      simp only [refWalk] at h
      cases hl : lookupKV es s with
      | some w => rw [hl] at h; exact ih w e h
      | none =>
        rw [hl] at h
        simp only [Except.error.injEq] at h
        exact ⟨s, h.symm⟩
    | null => simp only [refWalk, Except.error.injEq] at h; exact ⟨s, h.symm⟩
    | bool b => simp only [refWalk, Except.error.injEq] at h; exact ⟨s, h.symm⟩
    | num q => simp only [refWalk, Except.error.injEq] at h; exact ⟨s, h.symm⟩
    | str s2 => simp only [refWalk, Except.error.injEq] at h; exact ⟨s, h.symm⟩
    | arr xs => simp only [refWalk, Except.error.injEq] at h; exact ⟨s, h.symm⟩

/-- C2 (spec-modelled): for every reference string of the form `#/a/b/...`,
`resolve_reference` strips the leading `#/`, walks the remaining segments
through nested mappings from the document root, returns the node found
there, and fails with a `ReferenceError` (naming a segment) exactly when
the walk meets an absent segment. -/
theorem resolveReference_spec (spec : Json) (segs : List String)
    (hne : segs ≠ []) (hseg : ∀ s ∈ segs, '/' ∉ s.data) :
    (∀ v, resolve_reference spec (mkRef segs) = .ok v ↔ walkPath spec segs = some v) ∧
    ((∃ e, resolve_reference spec (mkRef segs) = .error e) ↔ walkPath spec segs = none) ∧
    (∀ e, resolve_reference spec (mkRef segs) = .error e → ∃ s, e = .refError s) := by
  have hstr : resolve_reference spec (mkRef segs) = refWalk spec segs := by
    show refWalk spec ((splitOnChar '/' (joinSlashChars segs)).map (fun cs => String.mk cs)) =
      refWalk spec segs
    rw [splitOnChar_join segs hne hseg]
    have hmap : (segs.map String.data).map (fun cs => String.mk cs) = segs := by
      rw [List.map_map]
      exact List.map_id segs
    rw [hmap]
  rw [hstr]
  refine ⟨fun v => refWalk_ok_iff segs spec v, ?_, fun e => refWalk_error_shape segs spec e⟩
  constructor
  · rintro ⟨e, he⟩
    cases hw : walkPath spec segs with
    | none => rfl
    | some v =>
      rw [(refWalk_ok_iff segs spec v).mpr hw] at he
      cases he
  · intro hw
    cases hr : refWalk spec segs with
    | ok v => rw [(refWalk_ok_iff segs spec v).mp hr] at hw; cases hw
    | error e => exact ⟨e, rfl⟩

/-- The specification shape of the repository's own reference test. -/
def c2Spec : Json :=
  .obj [("components", .obj [("schemas", .obj [("User",
    .obj [("type", .str "object")])])])]

/-- C2 witness: resolving `#/components/schemas/User` against the concrete
specification. -/
theorem resolveReference_spec_witness :
    (["components", "schemas", "User"] : List String) ≠ [] ∧
    (∀ s ∈ (["components", "schemas", "User"] : List String), '/' ∉ s.data) ∧
    resolve_reference c2Spec (mkRef ["components", "schemas", "User"]) =
      .ok (.obj [("type", .str "object")]) := by
  refine ⟨by decide, by decide, ?_⟩
  exact (resolveReference_spec c2Spec ["components", "schemas", "User"]
    (by decide) (by decide)).1 _ |>.mpr rfl

end ValidAPI
